import Mathlib

/-!
Verification of the base16 palette / VS Code theme conversion engine:
a shallow embedding of the color normalization, distance, palette
matching, tree-rewriting and template binding code of
`scripts/vscode.py`, `scripts/template_generator.py` and
`scripts/theme_builder.py`.

Strings are embedded as `List Char`.  Code that can raise a Python
exception is embedded with an `Option` result, `none` standing for a
raised exception.  Floating point quantities (Delta E values, the
threshold) are embedded as rationals; the RGB Euclidean distance is
embedded by its square, which `math.sqrt` maps monotonically onto the
distance itself, so every comparison the code makes between RGB
distances is preserved.
-/

namespace ThemeCore

/-- Python `str.lower()` on the characters of the string (the color and
template strings handled by the scripts are ASCII, where `Char.toLower`
agrees with Python). -/
def pyLower (l : List Char) : List Char := l.map Char.toLower

/-- Python `str.strip()`: remove whitespace from both ends. -/
def pyStrip (l : List Char) : List Char :=
  ((l.dropWhile Char.isWhitespace).reverse.dropWhile Char.isWhitespace).reverse

/-- `normalize_color` from `scripts/vscode.py`: empty input yields the
empty string, otherwise lower-case, strip whitespace, and strip every
leading `#` (Python `lstrip("#")`). -/
def normalize_color (color : List Char) : List Char :=
  if color = [] then []
  else (pyStrip (pyLower color)).dropWhile (· == '#')

/-- `strip_alpha` from `scripts/vscode.py`: normalize, and when the
normalized form has length exactly 8, keep the first 6 characters. -/
def strip_alpha (color : List Char) : List Char :=
  let normalized := normalize_color color
  if normalized.length = 8 then normalized.take 6 else normalized

/-- The characters accepted as hexadecimal digits by Python `int(s, 16)`
(the ASCII ones; the color strings handled by the scripts are ASCII). -/
def isHexChar (c : Char) : Bool :=
  c.isDigit || ('a' ≤ c && c ≤ 'f') || ('A' ≤ c && c ≤ 'F')

/-- Numeric value of a hexadecimal digit. -/
def hexCharVal (c : Char) : ℤ :=
  if c.isDigit then (c.toNat : ℤ) - 48
  else if 'a' ≤ c && c ≤ 'f' then (c.toNat : ℤ) - 87
  else (c.toNat : ℤ) - 55

/-- Python `int(s, 16)` on the two-character slices taken by
`hex_to_rgb`; `none` stands for a raised `ValueError`.  On two
characters Python accepts: two hex digits; a single hex digit preceded
by a sign or by whitespace, or followed by whitespace.  (An `0x` prefix
or an underscore needs further digits around it, so both are invalid at
this length.) -/
def pyIntHex2 (c1 c2 : Char) : Option ℤ :=
  if isHexChar c1 && isHexChar c2 then some (16 * hexCharVal c1 + hexCharVal c2)
  else if c1 == '+' && isHexChar c2 then some (hexCharVal c2)
  else if c1 == '-' && isHexChar c2 then some (-(hexCharVal c2))
  else if c1.isWhitespace && isHexChar c2 then some (hexCharVal c2)
  else if isHexChar c1 && c2.isWhitespace then some (hexCharVal c1)
  else none

/-- The decoding branch of `hex_to_rgb`, on the already-normalized
string: when at least 6 characters remain, decode the first three
character pairs with `int(_, 16)` (whose `ValueError` propagates,
embedded as `none`); shorter input decodes to `(0, 0, 0)`. -/
def hexDecode : List Char → Option (ℤ × ℤ × ℤ)
  | c0 :: c1 :: c2 :: c3 :: c4 :: c5 :: _ =>
    match pyIntHex2 c0 c1, pyIntHex2 c2 c3, pyIntHex2 c4 c5 with
    | some r, some g, some b => some (r, g, b)
    | _, _, _ => none
  | _ => some (0, 0, 0)

/-- `hex_to_rgb` from `scripts/vscode.py`: normalize, then decode. -/
def hex_to_rgb (hex_color : List Char) : Option (ℤ × ℤ × ℤ) :=
  hexDecode (normalize_color hex_color)

/-- `rgb_distance` from `scripts/vscode.py`, embedded by its square:
the code returns `math.sqrt` of this value, and `sqrt` is strictly
monotone on nonnegative arguments, so the strict comparisons
`find_closest_base16_color` performs between RGB distances coincide
with comparisons between these squares.  `none` stands for the
`ValueError` propagating out of `hex_to_rgb`. -/
def rgb_distance_sq (color1 color2 : List Char) : Option ℤ :=
  match hex_to_rgb (strip_alpha color1) with
  | none => none
  | some (r1, g1, b1) =>
    match hex_to_rgb (strip_alpha color2) with
    | none => none
    | some (r2, g2, b2) =>
      some ((r1 - r2) ^ 2 + (g1 - g2) ^ 2 + (b1 - b2) ^ 2)

/-- The CIEDE2000 computation of the external `coloraide` library
(`Color(f"#{c1}").delta_e(Color(f"#{c2}"), method="2000")`), abstracted
as a kernel function on the two alpha-stripped color strings; `none`
models any exception raised inside the `try` block of
`delta_e_distance` (for instance by `Color` on a malformed literal).
The repository treats this computation as a black box and so does the
embedding: every theorem quantifying over a kernel holds for the real
library function. -/
def DeltaEKernel : Type := List Char → List Char → Option ℚ

/-- `delta_e_distance` from `scripts/vscode.py`: strip the alpha
channel of both colors and hand them to the external Delta E
computation, every exception becoming `None` (here `none`). -/
def delta_e_distance (dE : DeltaEKernel) (color1 color2 : List Char) : Option ℚ :=
  dE (strip_alpha color1) (strip_alpha color2)

/-- `d < m` where `m : Option ℤ` is the running minimum RGB distance of
`find_closest_base16_color`, `none` standing for the initial
`float("inf")`. -/
def ltInf (d : ℤ) (m : Option ℤ) : Bool :=
  match m with
  | none => true
  | some mv => decide (d < mv)

/-- The `for` loop of `find_closest_base16_color`: state
`(closest_key, min_rgb_dist, min_delta_e)`, where the middle `none`
models the initial `float("inf")`; a new strict minimum updates all
three components together.  The outer `none` models the `ValueError`
propagating out of `rgb_distance`. -/
def find_closest_loop (dE : DeltaEKernel) (target_stripped : List Char) :
    List (List Char × List Char) → List Char × Option ℤ × Option ℚ →
    Option (List Char × Option ℤ × Option ℚ)
  | [], st => some st
  | (base16_key, base16_color) :: rest, (closest_key, min_rgb, min_de) =>
    match rgb_distance_sq target_stripped base16_color with
    | none => none
    | some d =>
      if ltInf d min_rgb then
        find_closest_loop dE target_stripped rest
          (base16_key, some d, delta_e_distance dE target_stripped base16_color)
      else
        find_closest_loop dE target_stripped rest (closest_key, min_rgb, min_de)

/-- The sentinel key returned on an empty palette. -/
def unknownKey : List Char := "unknown".toList

/-- `find_closest_base16_color` from `scripts/vscode.py`: on an empty
palette the sentinel `("unknown", inf, None)`; otherwise scan every
palette entry tracking the strict minimum RGB distance to the
alpha-stripped target. -/
def find_closest_base16_color (dE : DeltaEKernel) (target_color : List Char)
    (base16_palette : List (List Char × List Char)) :
    Option (List Char × Option ℤ × Option ℚ) :=
  if base16_palette = [] then some (unknownKey, none, none)
  else find_closest_loop dE (strip_alpha target_color) base16_palette ([], none, none)

/-- Python dict lookup on a dict embedded as its assignment history: an
association list in which a later entry stands for a later assignment,
so the lookup returns the last matching entry (last-write-wins, spec
§4.3). -/
def dictGet {α : Type} (d : List (List Char × α)) (k : List Char) : Option α :=
  match d with
  | [] => none
  | p :: rest =>
    match dictGet rest k with
    | some v => some v
    | none => if p.1 = k then some p.2 else none

/-- Python `dict.__setitem__` on the same embedding: an existing key is
updated in place, a new key is appended. -/
def dictInsert {α : Type} (d : List (List Char × α)) (k : List Char) (v : α) :
    List (List Char × α) :=
  if d.any (fun p => p.1 == k) then d.map (fun p => if p.1 = k then (k, v) else p)
  else d ++ [(k, v)]

/-- Python `dict.update`: assign every entry of the second dict into the
first, in order. -/
def dictUpdate {α : Type} (d e : List (List Char × α)) : List (List Char × α) :=
  e.foldl (fun acc p => dictInsert acc p.1 p.2) d

/-- `build_color_to_base16_map` from `scripts/template_generator.py`:
one assignment `color_map[normalize_color(color)] = (base16_key, True)`
per palette entry, in palette order (the unused `threshold` parameter is
kept as in the source).  The dict is embedded as its assignment history;
`dictGet` takes the later entry, matching the dict overwrite. -/
def build_color_to_base16_map (base16_palette : List (List Char × List Char))
    (threshold : Option ℚ) : List (List Char × (List Char × Bool)) :=
  base16_palette.map (fun p => (normalize_color p.2, (p.1, true)))

/-- The two characters of `"\x7b\x7b "`, opening a Jinja2 placeholder as
produced by the f-strings of `replace_color_with_variable`. -/
def placeholderOpen : List Char := "\x7b\x7b ".toList

/-- The closing `" \x7d\x7d"` of a produced placeholder. -/
def placeholderClose : List Char := " \x7d\x7d".toList

/-- The Jinja2 placeholder the generator produces for a slot or metadata
name: `"\x7b\x7b " ++ name ++ " \x7d\x7d"`. -/
def placeholder (name : List Char) : List Char :=
  placeholderOpen ++ name ++ placeholderClose

/-- The short sentinel transparent token `"#0000"`. -/
def sentinelShort : List Char := "#0000".toList

/-- The long sentinel transparent token `"#00000000"`. -/
def sentinelLong : List Char := "#00000000".toList

/-- `replace_color_with_variable` from `scripts/template_generator.py`:
empty input and the two sentinel transparent tokens (compared after
lower-casing) pass through; an exact match of the alpha-stripped color
in the color map produces that slot's placeholder with the two alpha
characters (when the normalized form has length 8) re-appended verbatim;
otherwise, when a threshold is given and positive, the nearest slot is
substituted if its Delta E is non-null and at most the threshold; any
other color is returned unchanged.  `none` models the `ValueError`
propagating out of `find_closest_base16_color`. -/
def replace_color_with_variable (dE : DeltaEKernel) (color : List Char)
    (color_map : List (List Char × (List Char × Bool)))
    (base16_palette : List (List Char × List Char))
    (threshold : Option ℚ) : Option (List Char) :=
  if color = [] then some color
  else if pyLower color = sentinelShort ∨ pyLower color = sentinelLong then some color
  else
    match dictGet color_map (strip_alpha color) with
    | some (base16_key, _) =>
      if (normalize_color color).length = 8 then
        some (placeholder base16_key ++ (normalize_color color).drop 6)
      else some (placeholder base16_key)
    | none =>
      match threshold with
      | some t =>
        if 0 < t then
          match find_closest_base16_color dE color base16_palette with
          | none => none
          | some (closest_key, _, min_de) =>
            match min_de with
            | some de =>
              if de ≤ t then
                if (normalize_color color).length = 8 then
                  some (placeholder closest_key ++ (normalize_color color).drop 6)
                else some (placeholder closest_key)
              else some color
            | none => some color
        else some color
      | none => some color

mutual
/-- A JSON / YAML document value: the nested object/array/scalar trees
the scripts read with `json.load` and `yaml.safe_load`.  Non-string
scalars are numbers, booleans and null; the walker passes all of them
through untouched. -/
inductive JsonValue : Type where
  | str (s : List Char) : JsonValue
  | num (q : ℚ) : JsonValue
  | bool (b : Bool) : JsonValue
  | null : JsonValue
  | obj (fields : JsonFields) : JsonValue
  | arr (items : JsonItems) : JsonValue

/-- The key/value fields of a JSON object, in document order. -/
inductive JsonFields : Type where
  | nil : JsonFields
  | cons (key : List Char) (value : JsonValue) (rest : JsonFields) : JsonFields

/-- The items of a JSON array, in document order. -/
inductive JsonItems : Type where
  | nil : JsonItems
  | cons (value : JsonValue) (rest : JsonItems) : JsonItems
end

/-- Python dict lookup over the fields of a parsed JSON object (as with
`dictGet`, a later duplicate field wins). -/
def fieldsGet : JsonFields → List Char → Option JsonValue
  | .nil, _ => none
  | .cons k v rest, key =>
    match fieldsGet rest key with
    | some w => some w
    | none => if k = key then some v else none

/-- Concatenation of object field lists. -/
def fieldsAppend : JsonFields → JsonFields → JsonFields
  | .nil, g => g
  | .cons k v rest, g => .cons k v (fieldsAppend rest g)

mutual
/-- `process_theme_value` from `scripts/template_generator.py`: strings
beginning with `#` go through `replace_color_with_variable`, other
strings and non-string scalars pass through, objects keep each key and
recurse on the value, arrays recurse on each item in order.  `none`
models the exception propagating out of a color replacement. -/
def process_theme_value (dE : DeltaEKernel)
    (color_map : List (List Char × (List Char × Bool)))
    (base16_palette : List (List Char × List Char))
    (threshold : Option ℚ) : JsonValue → Option JsonValue
  | .str s =>
    if s.head? = some '#' then
      (replace_color_with_variable dE s color_map base16_palette threshold).map .str
    else some (.str s)
  | .num q => some (.num q)
  | .bool b => some (.bool b)
  | .null => some .null
  | .obj fields =>
    (process_theme_fields dE color_map base16_palette threshold fields).map .obj
  | .arr items =>
    (process_theme_items dE color_map base16_palette threshold items).map .arr

/-- The dict comprehension of `process_theme_value` over object fields. -/
def process_theme_fields (dE : DeltaEKernel)
    (color_map : List (List Char × (List Char × Bool)))
    (base16_palette : List (List Char × List Char))
    (threshold : Option ℚ) : JsonFields → Option JsonFields
  | .nil => some .nil
  | .cons k v rest =>
    match process_theme_value dE color_map base16_palette threshold v with
    | none => none
    | some w =>
      match process_theme_fields dE color_map base16_palette threshold rest with
      | none => none
      | some ws => some (.cons k w ws)

/-- The list comprehension of `process_theme_value` over array items. -/
def process_theme_items (dE : DeltaEKernel)
    (color_map : List (List Char × (List Char × Bool)))
    (base16_palette : List (List Char × List Char))
    (threshold : Option ℚ) : JsonItems → Option JsonItems
  | .nil => some .nil
  | .cons v rest =>
    match process_theme_value dE color_map base16_palette threshold v with
    | none => none
    | some w =>
      match process_theme_items dE color_map base16_palette threshold rest with
      | none => none
      | some ws => some (.cons w ws)
end

/-- The key `"name"`. -/
def themeNameKey : List Char := "name".toList

/-- The key `"type"`. -/
def themeTypeKey : List Char := "type".toList

/-- The key `"colors"`. -/
def colorsKey : List Char := "colors".toList

/-- The key `"tokenColors"`. -/
def tokenColorsKey : List Char := "tokenColors".toList

/-- The literal `"\x7b\x7b theme_name \x7d\x7d"` assigned to the
template's `name` field. -/
def themeNamePlaceholder : List Char := placeholder ("theme_name".toList)

/-- The literal `"\x7b\x7b theme_type \x7d\x7d"` assigned to the
template's `type` field. -/
def themeTypePlaceholder : List Char := placeholder ("theme_type".toList)

/-- `generate_template` from `scripts/template_generator.py`: build the
color map, then copy exactly the `name`, `type`, `colors` and
`tokenColors` fields forward — the first two replaced by the metadata
placeholders when present, the last two walked through
`process_theme_value` (whose exception, `none`, propagates). -/
def generate_template (dE : DeltaEKernel) (theme_data : JsonFields)
    (base16_palette : List (List Char × List Char)) (threshold : Option ℚ) :
    Option JsonFields :=
  let color_map := build_color_to_base16_map base16_palette threshold
  let nameFields : JsonFields :=
    match fieldsGet theme_data themeNameKey with
    | some _ => .cons themeNameKey (.str themeNamePlaceholder) .nil
    | none => .nil
  let typeFields : JsonFields :=
    match fieldsGet theme_data themeTypeKey with
    | some _ => .cons themeTypeKey (.str themeTypePlaceholder) .nil
    | none => .nil
  let colorsPart : Option JsonFields :=
    match fieldsGet theme_data colorsKey with
    | some cv =>
      match process_theme_value dE color_map base16_palette threshold cv with
      | some cw => some (.cons colorsKey cw .nil)
      | none => none
    | none => some .nil
  let tokenPart : Option JsonFields :=
    match fieldsGet theme_data tokenColorsKey with
    | some tv =>
      match process_theme_value dE color_map base16_palette threshold tv with
      | some tw => some (.cons tokenColorsKey tw .nil)
      | none => none
    | none => some .nil
  match colorsPart, tokenPart with
  | some cf, some tf =>
    some (fieldsAppend nameFields (fieldsAppend typeFields (fieldsAppend cf tf)))
  | _, _ => none

mutual
/-- The tree walker of `process_theme_value` generalized over the color
callback (the `rewrite(node, colorFn)` of the specification §4.4): the
source instantiates the callback with `replace_color_with_variable`
applied to a fixed map, palette and threshold. -/
def rewriteTree (colorFn : List Char → List Char) : JsonValue → JsonValue
  | .str s => if s.head? = some '#' then .str (colorFn s) else .str s
  | .num q => .num q
  | .bool b => .bool b
  | .null => .null
  | .obj fields => .obj (rewriteFields colorFn fields)
  | .arr items => .arr (rewriteItems colorFn items)

/-- `rewriteTree` over object fields. -/
def rewriteFields (colorFn : List Char → List Char) : JsonFields → JsonFields
  | .nil => .nil
  | .cons k v rest => .cons k (rewriteTree colorFn v) (rewriteFields colorFn rest)

/-- `rewriteTree` over array items. -/
def rewriteItems (colorFn : List Char → List Char) : JsonItems → JsonItems
  | .nil => .nil
  | .cons v rest => .cons (rewriteTree colorFn v) (rewriteItems colorFn rest)
end

mutual
/-- Structural agreement between an input tree and its rewritten form:
the same constructors throughout (hence the same array lengths and
element order, and the same object keys in the same order), every
non-string scalar unchanged, and every string that does not begin with
`#` unchanged. -/
def sameShape : JsonValue → JsonValue → Bool
  | .str s, .str s2 => s.head? == some '#' || s == s2
  | .num a, .num b => a == b
  | .bool a, .bool b => a == b
  | .null, .null => true
  | .obj fs, .obj gs => sameShapeFields fs gs
  | .arr xs, .arr ys => sameShapeItems xs ys
  | _, _ => false

/-- `sameShape` over object fields: equal keys, in the same order. -/
def sameShapeFields : JsonFields → JsonFields → Bool
  | .nil, .nil => true
  | .cons k v rest, .cons k2 v2 rest2 =>
    k == k2 && sameShape v v2 && sameShapeFields rest rest2
  | _, _ => false

/-- `sameShape` over array items: equal lengths, in the same order. -/
def sameShapeItems : JsonItems → JsonItems → Bool
  | .nil, .nil => true
  | .cons v rest, .cons v2 rest2 => sameShape v v2 && sameShapeItems rest rest2
  | _, _ => false
end

mutual
/-- The number of string leaves of a document that template generation
substitutes at the given threshold: the leaves beginning with `#` whose
replacement completes and differs from the original literal. -/
def substCount (dE : DeltaEKernel)
    (color_map : List (List Char × (List Char × Bool)))
    (base16_palette : List (List Char × List Char))
    (threshold : Option ℚ) : JsonValue → Nat
  | .str s =>
    if s.head? = some '#' then
      match replace_color_with_variable dE s color_map base16_palette threshold with
      | some r => if r = s then 0 else 1
      | none => 0
    else 0
  | .obj fields => substCountFields dE color_map base16_palette threshold fields
  | .arr items => substCountItems dE color_map base16_palette threshold items
  | _ => 0

/-- `substCount` over object fields. -/
def substCountFields (dE : DeltaEKernel)
    (color_map : List (List Char × (List Char × Bool)))
    (base16_palette : List (List Char × List Char))
    (threshold : Option ℚ) : JsonFields → Nat
  | .nil => 0
  | .cons _ v rest =>
    substCount dE color_map base16_palette threshold v +
      substCountFields dE color_map base16_palette threshold rest

/-- `substCount` over array items. -/
def substCountItems (dE : DeltaEKernel)
    (color_map : List (List Char × (List Char × Bool)))
    (base16_palette : List (List Char × List Char))
    (threshold : Option ℚ) : JsonItems → Nat
  | .nil => 0
  | .cons v rest =>
    substCount dE color_map base16_palette threshold v +
      substCountItems dE color_map base16_palette threshold rest
end

/-- Scan for the first closing `\x7d\x7d` delimiter: the text strictly
before it and the remainder strictly after it. -/
def splitClose : List Char → Option (List Char × List Char)
  | [] => none
  | c :: rest =>
    if c = '\x7d' ∧ rest.head? = some '\x7d' then some ([], rest.tail)
    else
      match splitClose rest with
      | some (inner, after) => some (c :: inner, after)
      | none => none

/-- Jinja2 variable substitution over template text, on explicit fuel (a
bound on the number of characters still to be consumed, so structural in
the fuel): each `\x7b\x7b name \x7d\x7d` is replaced by the context
value of the whitespace-trimmed name, all other characters are copied.
A name with no binding renders as the empty string: the `Environment`
of `scripts/theme_builder.py` is built without `undefined=StrictUndefined`,
so Jinja2's default `Undefined` applies, and `str(Undefined())` is
empty.  An unterminated opening delimiter is left in place (the
templates this repository produces always close their placeholders). -/
def jinjaRenderFuel (ctx : List (List Char × List Char)) :
    Nat → List Char → List Char
  | 0, l => l
  | _ + 1, [] => []
  | fuel + 1, c :: rest =>
    if c = '\x7b' ∧ rest.head? = some '\x7b' then
      match splitClose rest.tail with
      | some (inner, after) =>
        (dictGet ctx (pyStrip inner)).getD [] ++ jinjaRenderFuel ctx fuel after
      | none => c :: rest
    else c :: jinjaRenderFuel ctx fuel rest

/-- Jinja2 variable substitution over template text (the external
engine `render_theme` delegates to, embedded for the placeholder-only
templates this repository renders). -/
def jinja_render (ctx : List (List Char × List Char)) (template : List Char) :
    List Char :=
  jinjaRenderFuel ctx template.length template

/-- `render_theme` from `scripts/theme_builder.py`:
`template.render(**palette_data)`. -/
def render_theme (template : List Char)
    (palette_data : List (List Char × List Char)) : List Char :=
  jinja_render palette_data template

/-- Whether the text contains the Jinja2 opening delimiter `\x7b\x7b`
anywhere; text without it renders to itself. -/
def hasOpen : List Char → Bool
  | [] => false
  | c :: rest => (c == '\x7b' && rest.head? == some '\x7b') || hasOpen rest

mutual
/-- `render_theme` applied to a serialized template document, at tree
level: the template is written out as JSON text, so Jinja2 substitutes
inside every string literal — object keys included; non-string scalars
serialize without brace characters and pass through.  This models
rendering composed with serialization and re-parsing, for templates
whose substituted values stay inside their string literal (hex color
strings always do). -/
def bindTree (ctx : List (List Char × List Char)) : JsonValue → JsonValue
  | .str s => .str (jinja_render ctx s)
  | .num q => .num q
  | .bool b => .bool b
  | .null => .null
  | .obj fields => .obj (bindFields ctx fields)
  | .arr items => .arr (bindItems ctx items)

/-- `bindTree` over object fields (keys are string literals of the
serialized text, so they are rendered too). -/
def bindFields (ctx : List (List Char × List Char)) : JsonFields → JsonFields
  | .nil => .nil
  | .cons k v rest => .cons (jinja_render ctx k) (bindTree ctx v) (bindFields ctx rest)

/-- `bindTree` over array items. -/
def bindItems (ctx : List (List Char × List Char)) : JsonItems → JsonItems
  | .nil => .nil
  | .cons v rest => .cons (bindTree ctx v) (bindItems ctx rest)
end

/-- `bindTree` over a whole template document (a top-level JSON object,
its braces and keys serialized like any other). -/
def bindDoc (ctx : List (List Char × List Char)) (doc : JsonFields) : JsonFields :=
  bindFields ctx doc

/-- The key `"variant"` of a palette source document. -/
def variantKey : List Char := "variant".toList

/-- The key `"palette"` of a palette source document. -/
def paletteKey : List Char := "palette".toList

/-- The binding name `"theme_name"`. -/
def themeNameVar : List Char := "theme_name".toList

/-- The binding name `"theme_type"`. -/
def themeTypeVar : List Char := "theme_type".toList

/-- The default theme name `"Unknown Theme"`. -/
def unknownThemeName : List Char := "Unknown Theme".toList

/-- The default variant `"dark"`. -/
def darkVariant : List Char := "dark".toList

/-- The fields of a parsed JSON/YAML object, as the association list the
dict embedding uses. -/
def fieldsToList : JsonFields → List (List Char × JsonValue)
  | .nil => []
  | .cons k v rest => (k, v) :: fieldsToList rest

/-- `parse_base16_palette` from `scripts/theme_builder.py`: a binding
context holding `theme_name` (the source's `name`, defaulting to
`"Unknown Theme"`) and `theme_type` (the source's `variant`, defaulting
to `"dark"`), updated with every entry of the source's `palette`
sub-mapping (`dict.update`, which defaults to the empty mapping when the
key is absent).  `none` models the exception `dict.update` raises when a
present `palette` entry is not a mapping. -/
def parse_base16_palette (data : List (List Char × JsonValue)) :
    Option (List (List Char × JsonValue)) :=
  let result : List (List Char × JsonValue) :=
    [(themeNameVar, (dictGet data themeNameKey).getD (.str unknownThemeName)),
     (themeTypeVar, (dictGet data variantKey).getD (.str darkVariant))]
  match dictGet data paletteKey with
  | none => some result
  | some (.obj fields) => some (dictUpdate result (fieldsToList fields))
  | some _ => none

/-- `stripAlpha` as worded by the specification (§4.1): normalize, then
truncate to the first 6 characters when the normalized length is **at
least** 8, otherwise return as-is.  Stated from the specification's
words, for comparison with the source's `strip_alpha`, which truncates
only at length exactly 8. -/
def strip_alpha_spec (color : List Char) : List Char :=
  let normalized := normalize_color color
  if 8 ≤ normalized.length then normalized.take 6 else normalized

/-- The 22 characters accepted by `isHexChar`. -/
def hexAllChars : List Char := "0123456789abcdefABCDEF".toList

/-- A well-formed Jinja2 identifier of this template vocabulary:
nonempty and free of whitespace and brace characters, as the slot names
`base00`…`base0F` and the metadata names `theme_name` / `theme_type`
all are. -/
def goodName (name : List Char) : Bool :=
  !name.isEmpty &&
    name.all (fun c => !c.isWhitespace && c != '\x7b' && c != '\x7d')

/-- A well-formed palette slot value: a `#` followed by exactly six hex
digits. -/
def goodSlotValue (v : List Char) : Bool :=
  match v with
  | c :: w => c == '#' && w.length == 6 && w.all isHexChar
  | [] => false

/-- A palette that supports exact round-tripping: slot names are
well-formed identifiers made of alphanumeric characters (hence distinct
from `theme_name` / `theme_type`, which contain an underscore) and
pairwise distinct; slot values are `#`-prefixed six-digit hex colors;
and no two slots share a normalized color value (the exact-match index
is last-write-wins, so a duplicated color could resolve to another
slot's spelling of it). -/
abbrev goodPalette (P : List (List Char × List Char)) : Prop :=
  (∀ p ∈ P, goodName p.1 = true ∧ (∀ c ∈ p.1, c.isAlphanum = true) ∧
      goodSlotValue p.2 = true) ∧
  (P.map Prod.fst).Nodup ∧
  (P.map (fun p => normalize_color p.2)).Nodup

mutual
/-- A theme document generated purely from the palette's own values:
every string leaf beginning with `#` equals some slot's value verbatim,
and every other string leaf is free of the Jinja2 opening delimiter
(ordinary theme text, which the rendering pass leaves untouched). -/
def pureTree (P : List (List Char × List Char)) : JsonValue → Bool
  | .str s =>
    if s.head? = some '#' then P.any (fun p => p.2 == s)
    else !hasOpen s
  | .num _ => true
  | .bool _ => true
  | .null => true
  | .obj fields => pureFields P fields
  | .arr items => pureItems P items

/-- `pureTree` over object fields: keys are ordinary text too. -/
def pureFields (P : List (List Char × List Char)) : JsonFields → Bool
  | .nil => true
  | .cons k v rest => !hasOpen k && pureTree P v && pureFields P rest

/-- `pureTree` over array items. -/
def pureItems (P : List (List Char × List Char)) : JsonItems → Bool
  | .nil => true
  | .cons v rest => pureTree P v && pureItems P rest
end

/-- A theme document over the closed schema the template format keeps:
exactly the fields `name`, `type`, `colors`, `tokenColors`. -/
def themeDoc (nm vt : List Char) (colorsDoc tokensDoc : JsonValue) : JsonFields :=
  .cons themeNameKey (.str nm)
    (.cons themeTypeKey (.str vt)
      (.cons colorsKey colorsDoc
        (.cons tokenColorsKey tokensDoc .nil)))

/-- The binding context `render_theme` receives for a palette `P` with
metadata name `nm` and variant `vt`: the dict `parse_base16_palette`
builds — `theme_name` and `theme_type`, then every palette entry merged
in with `dict.update`. -/
def bindingContext (nm vt : List Char) (P : List (List Char × List Char)) :
    List (List Char × List Char) :=
  dictUpdate [(themeNameVar, nm), (themeTypeVar, vt)] P

/-! ### Dictionary lemmas -/

theorem dictGet_append_some {α : Type} {e : List (List Char × α)} {k : List Char}
    {v : α} (d : List (List Char × α)) (h : dictGet e k = some v) :
    dictGet (d ++ e) k = some v := by
  induction d with
  | nil => simpa using h
  | cons p rest ih => simp [dictGet, ih]

theorem dictGet_append_none {α : Type} {e : List (List Char × α)} {k : List Char}
    (d : List (List Char × α)) (h : dictGet e k = none) :
    dictGet (d ++ e) k = dictGet d k := by
  induction d with
  | nil => simpa using h
  | cons p rest ih => simp [dictGet, ih]

theorem dictGet_eq_none {α : Type} {d : List (List Char × α)} {k : List Char}
    (h : ∀ p ∈ d, p.1 ≠ k) : dictGet d k = none := by
  induction d with
  | nil => rfl
  | cons p rest ih =>
    have hp : p.1 ≠ k := h p (List.mem_cons_self p rest)
    have hrest := ih (fun q hq => h q (List.mem_cons_of_mem p hq))
    simp [dictGet, hrest, hp]

theorem dictGet_mem_nodup {α : Type} {d : List (List Char × α)} {k : List Char}
    {v : α} (hnd : (d.map Prod.fst).Nodup) (hmem : (k, v) ∈ d) :
    dictGet d k = some v := by
  induction d with
  | nil => cases hmem
  | cons p rest ih =>
    rw [List.map_cons, List.nodup_cons] at hnd
    rcases List.mem_cons.mp hmem with heq | hmem2
    · subst heq
      have hnone : dictGet rest k = none := by
        refine dictGet_eq_none ?_
        intro q hq hqk
        exact hnd.1 (List.mem_map.mpr ⟨q, hq, hqk⟩)
      simp [dictGet, hnone]
    · have := ih hnd.2 hmem2
      simp [dictGet, this]

theorem dictGet_map_replace_ne {α : Type} (d : List (List Char × α))
    (a k : List Char) (b : α) (hak : a ≠ k) :
    dictGet (d.map (fun p => if p.1 = a then (a, b) else p)) k = dictGet d k := by
  induction d with
  | nil => rfl
  | cons p rest ih =>
    rw [List.map_cons]
    show (match dictGet (rest.map _) k with
      | some v => some v
      | none => if (if p.1 = a then (a, b) else p).1 = k
          then some (if p.1 = a then (a, b) else p).2 else none) = _
    rw [ih]
    by_cases hpa : p.1 = a
    · have h1 : (if p.1 = a then (a, b) else p) = (a, b) := if_pos hpa
      rw [h1]
      show (match dictGet rest k with
        | some v => some v
        | none => if a = k then some b else none) = dictGet (p :: rest) k
      have hpk : ¬ p.1 = k := fun h => hak (hpa ▸ h)
      simp [dictGet, hak, hpk]
    · have h1 : (if p.1 = a then (a, b) else p) = p := if_neg hpa
      rw [h1]
      rfl

theorem dictGet_map_replace_eq {α : Type} (d : List (List Char × α))
    (a : List Char) (b : α) (hmem : d.any (fun p => p.1 == a) = true) :
    dictGet (d.map (fun p => if p.1 = a then (a, b) else p)) a = some b := by
  induction d with
  | nil => cases hmem
  | cons p rest ih =>
    rw [List.map_cons]
    by_cases hrest : rest.any (fun p => p.1 == a) = true
    · have := ih hrest
      show (match dictGet (rest.map _) a with
        | some v => some v
        | none => _) = some b
      rw [this]
    · have hp : p.1 = a := by
        rw [List.any_cons] at hmem
        rcases Bool.or_eq_true _ _ |>.mp hmem with h | h
        · exact beq_iff_eq.mp h
        · exact absurd h hrest
      have hnone : dictGet (rest.map (fun p => if p.1 = a then (a, b) else p)) a
          = none := by
        refine dictGet_eq_none ?_
        intro q hq
        obtain ⟨q0, hq0, rfl⟩ := List.mem_map.mp hq
        have hq0a : ¬ q0.1 = a := by
          intro h
          exact hrest (List.any_eq_true.mpr ⟨q0, hq0, beq_iff_eq.mpr h⟩)
        rw [if_neg hq0a]
        exact hq0a
      show (match dictGet (rest.map _) a with
        | some v => some v
        | none => if (if p.1 = a then (a, b) else p).1 = a
            then some (if p.1 = a then (a, b) else p).2 else none) = some b
      rw [hnone]
      simp [hp]

theorem dictInsert_get {α : Type} (d : List (List Char × α)) (a k : List Char)
    (b : α) :
    dictGet (dictInsert d a b) k = if a = k then some b else dictGet d k := by
  unfold dictInsert
  by_cases hmem : d.any (fun p => p.1 == a) = true
  · rw [if_pos hmem]
    by_cases hak : a = k
    · subst hak
      rw [if_pos rfl]
      exact dictGet_map_replace_eq d a b hmem
    · rw [if_neg hak]
      exact dictGet_map_replace_ne d a k b hak
  · rw [if_neg hmem]
    by_cases hak : a = k
    · subst hak
      rw [if_pos rfl]
      refine dictGet_append_some d ?_
      show (if a = a then some b else none) = some b
      exact if_pos rfl
    · have h1 : dictGet [(a, b)] k = none := by
        show (if a = k then some b else none) = none
        exact if_neg hak
      rw [dictGet_append_none d h1, if_neg hak]

theorem dictUpdate_get {α : Type} (d e : List (List Char × α)) (k : List Char) :
    dictGet (dictUpdate d e) k =
      match dictGet e k with
      | some v => some v
      | none => dictGet d k := by
  induction e generalizing d with
  | nil => rfl
  | cons p rest ih =>
    show dictGet (dictUpdate (dictInsert d p.1 p.2) rest) k = _
    rw [ih]
    show _ = (match (match dictGet rest k with
      | some v => some v
      | none => if p.1 = k then some p.2 else none) with
      | some v => some v
      | none => dictGet d k)
    rw [dictInsert_get]
    by_cases hpk : p.1 = k
    · subst hpk
      cases hh : dictGet rest p.1 <;> simp
    · rw [if_neg hpk]
      cases hh : dictGet rest k <;> simp [hpk]

theorem dictUpdate_disjoint {α : Type} (d e : List (List Char × α))
    (h : ∀ p ∈ e, ∀ q ∈ d, p.1 ≠ q.1) (hnd : (e.map Prod.fst).Nodup) :
    dictUpdate d e = d ++ e := by
  induction e generalizing d with
  | nil => simp [dictUpdate]
  | cons p rest ih =>
    rw [List.map_cons, List.nodup_cons] at hnd
    show dictUpdate (dictInsert d p.1 p.2) rest = _
    have hins : dictInsert d p.1 p.2 = d ++ [(p.1, p.2)] := by
      unfold dictInsert
      have : d.any (fun q => q.1 == p.1) = false := by
        rw [Bool.eq_false_iff]
        intro hany
        obtain ⟨q, hq, hqp⟩ := List.any_eq_true.mp hany
        exact h p (List.mem_cons_self p rest) q hq (beq_iff_eq.mp hqp).symm
      rw [this]
      simp
    rw [hins, ih _ ?_ hnd.2]
    · simp
    · intro p2 hp2 q hq
      rcases List.mem_append.mp hq with hq1 | hq2
      · exact h p2 (List.mem_cons_of_mem p hp2) q hq1
      · rcases List.mem_singleton.mp hq2 with rfl
        intro hcontr
        exact hnd.1 (hcontr ▸ List.mem_map_of_mem Prod.fst hp2)

/-! ### Hex decoding lemmas, claims C1 and C5 -/

theorem hexDecode_short (l : List Char) (h : l.length < 6) :
    hexDecode l = some (0, 0, 0) := by
  match l with
  | [] => rfl
  | [_] => rfl
  | [_, _] => rfl
  | [_, _, _] => rfl
  | [_, _, _, _] => rfl
  | [_, _, _, _, _] => rfl
  | _ :: _ :: _ :: _ :: _ :: _ :: _ =>
    simp only [List.length_cons] at h
    omega

theorem pyIntHex2_hex (c1 c2 : Char) (h1 : isHexChar c1 = true)
    (h2 : isHexChar c2 = true) :
    pyIntHex2 c1 c2 = some (16 * hexCharVal c1 + hexCharVal c2) := by
  unfold pyIntHex2
  simp [h1, h2]

theorem hexDecode_hex (l : List Char) (h : ∀ c ∈ l.take 6, isHexChar c = true) :
    (hexDecode l).isSome = true := by
  match l with
  | [] => rfl
  | [_] => rfl
  | [_, _] => rfl
  | [_, _, _] => rfl
  | [_, _, _, _] => rfl
  | [_, _, _, _, _] => rfl
  | c0 :: c1 :: c2 :: c3 :: c4 :: c5 :: rest =>
    have h0 := h c0 (by simp)
    have h1 := h c1 (by simp)
    have h2 := h c2 (by simp)
    have h3 := h c3 (by simp)
    have h4 := h c4 (by simp)
    have h5 := h c5 (by simp)
    rw [show hexDecode (c0 :: c1 :: c2 :: c3 :: c4 :: c5 :: rest) =
      (match pyIntHex2 c0 c1, pyIntHex2 c2 c3, pyIntHex2 c4 c5 with
       | some r, some g, some b => some (r, g, b)
       | _, _, _ => none) from rfl]
    rw [pyIntHex2_hex c0 c1 h0 h1, pyIntHex2_hex c2 c3 h2 h3,
      pyIntHex2_hex c4 c5 h4 h5]
    rfl

/-- C1 counterexample: decoding the malformed literal `"#zzzzzz"` (six
non-hex characters after the `#`) raises `ValueError` inside
`int(_, 16)` — embedded as `none` — instead of returning an RGB triple,
and `rgb_distance` propagates the exception, so neither function is
total on all string inputs as the claim states. -/
theorem C1_counterexample :
    hex_to_rgb ("#zzzzzz".toList) = none ∧
    rgb_distance_sq ("#zzzzzz".toList) ("#000000".toList) = none := by decide

/-- C1 amended: decoding degrades to `(0, 0, 0)` on too-short input
(normalized length below 6) and succeeds whenever the first six
normalized characters are hex digits; but on input of normalized length
at least 6 whose leading pairs fail to parse as hex, `hex_to_rgb`
raises (`none`), and `rgb_distance` is total exactly when both
alpha-stripped arguments decode. -/
theorem C1_hex_decoding_amended (s t : List Char) :
    ((normalize_color s).length < 6 → hex_to_rgb s = some (0, 0, 0)) ∧
    ((∀ c ∈ (normalize_color s).take 6, isHexChar c = true) →
      (hex_to_rgb s).isSome = true) ∧
    ((rgb_distance_sq s t).isSome = true ↔
      (hex_to_rgb (strip_alpha s)).isSome = true ∧
        (hex_to_rgb (strip_alpha t)).isSome = true) := by
  refine ⟨?_, ?_, ?_⟩
  · intro h
    unfold hex_to_rgb
    exact hexDecode_short _ h
  · intro h
    unfold hex_to_rgb
    exact hexDecode_hex _ h
  · unfold rgb_distance_sq
    cases h1 : hex_to_rgb (strip_alpha s) with
    | none => simp
    | some v1 =>
      obtain ⟨r1, g1, b1⟩ := v1
      cases h2 : hex_to_rgb (strip_alpha t) with
      | none => simp
      | some v2 =>
        obtain ⟨r2, g2, b2⟩ := v2
        simp

/-- C1 amended, witnessed at concrete inputs. -/
theorem C1_hex_decoding_amended_witness :
    hex_to_rgb ("#ab".toList) = some (0, 0, 0) ∧
    (hex_to_rgb ("#EA9a97".toList)).isSome = true :=
  ⟨(C1_hex_decoding_amended ("#ab".toList) ("#000000".toList)).1 (by decide),
   (C1_hex_decoding_amended ("#EA9a97".toList) ("#000000".toList)).2.1 (by decide)⟩

/-- C5 counterexample: on `"#123456789"` (normalized length 9) the
source returns all 9 characters unchanged, while the claimed
truncate-when-length-at-least-8 rule returns the first 6; the claim
fails at this input. -/
theorem C5_counterexample :
    strip_alpha ("#123456789".toList) ≠ strip_alpha_spec ("#123456789".toList) := by
  decide

/-- C5 amended: `strip_alpha` first normalizes, then truncates to the
first 6 characters exactly when the normalized length equals 8; any
other length — including lengths 9 and above, which the claim said are
truncated too — is returned as-is. -/
theorem C5_strip_alpha_amended (color : List Char) :
    ((normalize_color color).length = 8 →
      strip_alpha color = (normalize_color color).take 6) ∧
    ((normalize_color color).length ≠ 8 →
      strip_alpha color = normalize_color color) := by
  constructor <;> intro h <;> simp [strip_alpha, h]

/-- C5 amended, witnessed at an 8-character literal (truncated) and a
9-character literal (returned as-is). -/
theorem C5_strip_alpha_amended_witness :
    strip_alpha ("#ea9a97e6".toList) = (normalize_color ("#ea9a97e6".toList)).take 6 ∧
    strip_alpha ("#123456789".toList) = normalize_color ("#123456789".toList) :=
  ⟨(C5_strip_alpha_amended ("#ea9a97e6".toList)).1 (by decide),
   (C5_strip_alpha_amended ("#123456789".toList)).2 (by decide)⟩

/-! ### Claims C8 and C4 -/

/-- C8: `replace_color_with_variable` returns the sentinel transparent
tokens `"#0000"` and `"#00000000"` (compared case-insensitively)
unchanged, whatever the Delta E kernel, color map, palette and
threshold — in particular even when the palette contains the
corresponding alpha-stripped color. -/
theorem C8_sentinel_passthrough (dE : DeltaEKernel) (color : List Char)
    (color_map : List (List Char × (List Char × Bool)))
    (base16_palette : List (List Char × List Char)) (threshold : Option ℚ)
    (h : pyLower color = sentinelShort ∨ pyLower color = sentinelLong) :
    replace_color_with_variable dE color color_map base16_palette threshold =
      some color := by
  have hne : ¬ color = [] := by
    intro he
    rw [he] at h
    rcases h with h | h <;> exact absurd h (by decide)
  unfold replace_color_with_variable
  rw [if_neg hne, if_pos h]

/-- C8 witnessed at `"#0000"` against a palette that binds black
`#000000` (whose alpha-stripped form the sentinel would match) and a
positive threshold. -/
theorem C8_sentinel_passthrough_witness :
    (pyLower ("#0000".toList) = sentinelShort ∨
      pyLower ("#0000".toList) = sentinelLong) ∧
    replace_color_with_variable (fun _ _ => some 0) ("#0000".toList)
      (build_color_to_base16_map [("base00".toList, "#000000".toList)] (some 5))
      [("base00".toList, "#000000".toList)] (some 5) = some ("#0000".toList) :=
  ⟨Or.inl (by decide),
   C8_sentinel_passthrough _ _ _ _ _ (Or.inl (by decide))⟩

/-- C4: the concrete alpha round-trip scenario: with palette slot
`base0A = "#ea9a97"` and theme color `"#ea9a97e6"`, templatization with
no threshold produces exactly `"\x7b\x7b base0A \x7d\x7de6"` (the alpha
suffix concatenated verbatim after the placeholder, no separator), and
binding that placeholder string against the same palette produces
`"#ea9a97e6"`. -/
theorem C4_concrete_alpha_roundtrip :
    replace_color_with_variable (fun _ _ => none) ("#ea9a97e6".toList)
      (build_color_to_base16_map [("base0A".toList, "#ea9a97".toList)] none)
      [("base0A".toList, "#ea9a97".toList)] none =
      some (placeholder ("base0A".toList) ++ "e6".toList) ∧
    render_theme (placeholder ("base0A".toList) ++ "e6".toList)
      (bindingContext ("Rose Pine Moon".toList) darkVariant
        [("base0A".toList, "#ea9a97".toList)]) = "#ea9a97e6".toList := by decide

/-! ### Jinja2 rendering lemmas and claim C2 -/

theorem splitClose_length {l inner after : List Char}
    (h : splitClose l = some (inner, after)) :
    l.length = inner.length + 2 + after.length := by
  induction l generalizing inner with
  | nil => cases h
  | cons c rest ih =>
    unfold splitClose at h
    by_cases hc : c = '\x7d' ∧ rest.head? = some '\x7d'
    · rw [if_pos hc] at h
      obtain ⟨rest2, rfl⟩ : ∃ rest2, rest = '\x7d' :: rest2 := by
        cases rest with
        | nil => cases hc.2
        | cons r rest2 => exact ⟨rest2, by rw [Option.some_inj.mp hc.2]⟩
      obtain ⟨rfl, rfl⟩ : inner = [] ∧ after = rest2 := by
        have := Option.some_inj.mp h
        exact ⟨congrArg Prod.fst this |>.symm, congrArg Prod.snd this |>.symm⟩
      simp
      omega
    · rw [if_neg hc] at h
      cases hs : splitClose rest with
      | none => rw [hs] at h; cases h
      | some pa =>
        obtain ⟨i0, a0⟩ := pa
        rw [hs] at h
        have heq := Option.some_inj.mp h
        obtain ⟨rfl, rfl⟩ : inner = c :: i0 ∧ after = a0 :=
          ⟨congrArg Prod.fst heq |>.symm, congrArg Prod.snd heq |>.symm⟩
        have := ih hs
        simp [this]
        omega

theorem splitClose_prefix {pre : List Char} (rest : List Char)
    (h : ∀ c ∈ pre, c ≠ '\x7d') :
    splitClose (pre ++ '\x7d' :: '\x7d' :: rest) = some (pre, rest) := by
  induction pre with
  | nil =>
    show splitClose ('\x7d' :: '\x7d' :: rest) = some ([], rest)
    unfold splitClose
    rw [if_pos (by simp)]
    rfl
  | cons c pre2 ih =>
    have hc : ¬ (c = '\x7d' ∧ (pre2 ++ '\x7d' :: '\x7d' :: rest).head? = some '\x7d') := by
      intro hcon
      exact h c (List.mem_cons_self c pre2) hcon.1
    show splitClose (c :: (pre2 ++ '\x7d' :: '\x7d' :: rest)) = some (c :: pre2, rest)
    unfold splitClose
    rw [if_neg hc, ih (fun d hd => h d (List.mem_cons_of_mem c hd))]

theorem jinjaRenderFuel_succ_cons (ctx : List (List Char × List Char))
    (fuel : Nat) (c : Char) (rest : List Char) :
    jinjaRenderFuel ctx (fuel + 1) (c :: rest) =
      if c = '\x7b' ∧ rest.head? = some '\x7b' then
        match splitClose rest.tail with
        | some (inner, after) =>
          (dictGet ctx (pyStrip inner)).getD [] ++ jinjaRenderFuel ctx fuel after
        | none => c :: rest
      else c :: jinjaRenderFuel ctx fuel rest := rfl

theorem jinjaRenderFuel_stable (ctx : List (List Char × List Char)) :
    ∀ fuel1 fuel2 l, l.length ≤ fuel1 → l.length ≤ fuel2 →
      jinjaRenderFuel ctx fuel1 l = jinjaRenderFuel ctx fuel2 l := by
  intro fuel1
  induction fuel1 with
  | zero =>
    intro fuel2 l h1 _
    have : l = [] := List.length_eq_zero.mp (Nat.le_zero.mp h1)
    subst this
    cases fuel2 <;> rfl
  | succ f1 ih =>
    intro fuel2 l h1 h2
    cases l with
    | nil => cases fuel2 <;> rfl
    | cons c rest =>
      cases fuel2 with
      | zero => simp at h2
      | succ f2 =>
        rw [jinjaRenderFuel_succ_cons, jinjaRenderFuel_succ_cons]
        by_cases hc : c = '\x7b' ∧ rest.head? = some '\x7b'
        · rw [if_pos hc, if_pos hc]
          obtain ⟨rest2, rfl⟩ : ∃ rest2, rest = '\x7b' :: rest2 := by
            cases rest with
            | nil => cases hc.2
            | cons r rest2 => exact ⟨rest2, by rw [Option.some_inj.mp hc.2]⟩
          cases hs : splitClose ('\x7b' :: rest2).tail with
          | none => rfl
          | some pa =>
            obtain ⟨inner, after⟩ := pa
            have hlen := splitClose_length hs
            simp only [List.tail_cons] at hs hlen
            simp only [List.length_cons] at h1 h2
            show (dictGet ctx (pyStrip inner)).getD [] ++ jinjaRenderFuel ctx f1 after =
              (dictGet ctx (pyStrip inner)).getD [] ++ jinjaRenderFuel ctx f2 after
            rw [ih f2 after (by omega) (by omega)]
        · rw [if_neg hc, if_neg hc]
          simp only [List.length_cons] at h1 h2
          rw [ih f2 rest (by omega) (by omega)]

theorem jinjaRenderFuel_eq_render (ctx : List (List Char × List Char))
    (fuel : Nat) (l : List Char) (h : l.length ≤ fuel) :
    jinjaRenderFuel ctx fuel l = jinja_render ctx l :=
  jinjaRenderFuel_stable ctx fuel l.length l h le_rfl

theorem jinja_render_inert (ctx : List (List Char × List Char)) (l : List Char)
    (h : hasOpen l = false) : jinja_render ctx l = l := by
  have key : ∀ fuel l2, (l2 : List Char).length ≤ fuel → hasOpen l2 = false →
      jinjaRenderFuel ctx fuel l2 = l2 := by
    intro fuel
    induction fuel with
    | zero => intro l2 _ _; rfl
    | succ f ih =>
      intro l2 hlen hopen
      cases l2 with
      | nil => rfl
      | cons c rest =>
        unfold hasOpen at hopen
        rw [Bool.or_eq_false_iff, Bool.and_eq_false_iff] at hopen
        have hc : ¬ (c = '\x7b' ∧ rest.head? = some '\x7b') := by
          intro hcon
          rcases hopen.1 with h1 | h1
          · exact absurd (beq_iff_eq.mpr hcon.1) (by simp [h1])
          · exact absurd (beq_iff_eq.mpr hcon.2) (by simp [h1])
        rw [jinjaRenderFuel_succ_cons, if_neg hc]
        simp only [List.length_cons] at hlen
        rw [ih rest (by omega) hopen.2]
  exact key l.length l le_rfl h

theorem dropWhile_all_false (p : Char → Bool) :
    ∀ l : List Char, (∀ c ∈ l, p c = false) → l.dropWhile p = l := by
  intro l h
  cases l with
  | nil => rfl
  | cons c rest =>
    rw [List.dropWhile_cons, h c (List.mem_cons_self c rest)]
    simp

theorem pyStrip_pad (name : List Char) (hne : name ≠ [])
    (hws : ∀ c ∈ name, c.isWhitespace = false) :
    pyStrip (' ' :: name ++ [' ']) = name := by
  obtain ⟨h, t, rfl⟩ : ∃ h t, name = h :: t := by
    cases name with
    | nil => exact absurd rfl hne
    | cons h t => exact ⟨h, t, rfl⟩
  have hh : h.isWhitespace = false := hws h (List.mem_cons_self h t)
  unfold pyStrip
  have step1 : (' ' :: (h :: t) ++ [' ']).dropWhile Char.isWhitespace
      = (h :: t) ++ [' '] := by
    rw [show (' ' :: (h :: t) ++ [' ']) = ' ' :: ((h :: t) ++ [' ']) from rfl,
      List.dropWhile_cons, if_pos (by decide),
      show ((h :: t) ++ [' ']) = h :: (t ++ [' ']) from rfl,
      List.dropWhile_cons, hh]
    simp
  rw [step1]
  have step2 : ((h :: t) ++ [' ']).reverse = ' ' :: (h :: t).reverse := by simp
  rw [step2, List.dropWhile_cons, if_pos (by decide),
    dropWhile_all_false _ _ (fun c hc => hws c (List.mem_reverse.mp hc))]
  simp

theorem goodName_spec (name : List Char) (h : goodName name = true) :
    name ≠ [] ∧ ∀ c ∈ name, c.isWhitespace = false ∧ c ≠ '\x7b' ∧ c ≠ '\x7d' := by
  unfold goodName at h
  rw [Bool.and_eq_true, List.all_eq_true] at h
  refine ⟨by simpa using h.1, ?_⟩
  intro c hc
  have := h.2 c hc
  simp only [Bool.and_eq_true, Bool.not_eq_true', bne_iff_ne] at this
  exact ⟨this.1.1, this.1.2, this.2⟩

theorem jinja_render_placeholder (ctx : List (List Char × List Char))
    (name tail : List Char) (h : goodName name = true) :
    jinja_render ctx (placeholder name ++ tail) =
      (dictGet ctx name).getD [] ++ jinja_render ctx tail := by
  obtain ⟨hne, hprop⟩ := goodName_spec name h
  have hshape : placeholder name ++ tail =
      '\x7b' :: '\x7b' :: ((' ' :: name ++ [' ']) ++ ('\x7d' :: '\x7d' :: tail)) := by
    simp [placeholder, placeholderOpen, placeholderClose]
  have hsplit : splitClose ((' ' :: name ++ [' ']) ++ ('\x7d' :: '\x7d' :: tail)) =
      some (' ' :: name ++ [' '], tail) := by
    apply splitClose_prefix
    intro c hc
    rcases List.mem_cons.mp hc with rfl | hc2
    · decide
    · rcases List.mem_append.mp hc2 with hc3 | hc4
      · exact (hprop c hc3).2.2
      · rcases List.mem_singleton.mp hc4 with rfl
        decide
  rw [hshape]
  unfold jinja_render
  rw [show ('\x7b' :: '\x7b' :: ((' ' :: name ++ [' ']) ++ ('\x7d' :: '\x7d' :: tail))).length
    = ('\x7b' :: ((' ' :: name ++ [' ']) ++ ('\x7d' :: '\x7d' :: tail))).length + 1 from rfl]
  rw [jinjaRenderFuel_succ_cons, if_pos ⟨rfl, rfl⟩, List.tail_cons, hsplit]
  show (dictGet ctx (pyStrip (' ' :: name ++ [' ']))).getD [] ++
      jinjaRenderFuel ctx
        ('\x7b' :: ((' ' :: name ++ [' ']) ++ ('\x7d' :: '\x7d' :: tail))).length tail =
    (dictGet ctx name).getD [] ++ jinjaRenderFuel ctx tail.length tail
  rw [pyStrip_pad name hne (fun c hc => (hprop c hc).1),
    jinjaRenderFuel_stable ctx _ tail.length tail (by simp; omega) le_rfl]

/-- C2 counterexample: rendering a template whose placeholder names
neither a palette slot nor a metadata key, against the binding context
built from a palette, yields the empty string — materialization renders
the unresolved placeholder silently as blank text instead of failing
with a hard error. -/
theorem C2_counterexample :
    render_theme (placeholder ("nosuchslot".toList))
      (bindingContext ("Rose".toList) darkVariant
        [("base00".toList, "#232136".toList)]) = [] := by decide

/-- C2 amended: the Jinja2 `Environment` of the theme builder is created
without `undefined=StrictUndefined`, so a placeholder naming neither a
provided palette slot nor a metadata key renders as Jinja2's default
`Undefined` — the empty string — and materialization completes without
any error: the unresolved placeholder is silently rendered as blank
text. -/
theorem C2_unresolved_renders_empty (ctx : List (List Char × List Char))
    (name : List Char) (hname : goodName name = true)
    (hmiss : dictGet ctx name = none) :
    render_theme (placeholder name) ctx = [] := by
  unfold render_theme
  have hp := jinja_render_placeholder ctx name [] hname
  rw [List.append_nil] at hp
  rw [hp, hmiss]
  rfl

/-- C2 amended, witnessed at a concrete unresolved placeholder. -/
theorem C2_unresolved_renders_empty_witness :
    goodName ("nosuchslot".toList) = true ∧
    dictGet (bindingContext ("Rose".toList) darkVariant
      [("base00".toList, "#232136".toList)]) ("nosuchslot".toList) = none ∧
    render_theme (placeholder ("nosuchslot".toList))
      (bindingContext ("Rose".toList) darkVariant
        [("base00".toList, "#232136".toList)]) = [] :=
  ⟨by decide, by decide,
   C2_unresolved_renders_empty _ _ (by decide) (by decide)⟩

/-! ### Claim C10 -/

theorem dictGet_pair_fst {α : Type} (a b : List Char) (x y : α) (hne : b ≠ a) :
    dictGet [(a, x), (b, y)] a = some x := by
  simp [dictGet, hne]

theorem dictGet_pair_snd {α : Type} (a b : List Char) (x y : α) :
    dictGet [(a, x), (b, y)] b = some y := by
  simp [dictGet]

/-- C10: the materializer's palette parser always binds the metadata
placeholders: for every source mapping the binding context contains
`theme_name` and `theme_type`; a missing `name` key defaults to
`"Unknown Theme"` and a missing `variant` key defaults to `"dark"`
(whenever the palette sub-mapping does not itself rebind the metadata
name, which slot mappings never do); and every key of the palette
sub-mapping is merged into the binding verbatim. -/
theorem C10_parse_palette_bindings (data ctx : List (List Char × JsonValue))
    (h : parse_base16_palette data = some ctx) :
    (dictGet ctx themeNameVar).isSome = true ∧
    (dictGet ctx themeTypeVar).isSome = true ∧
    (dictGet data themeNameKey = none →
      (∀ fields, dictGet data paletteKey = some (.obj fields) →
        dictGet (fieldsToList fields) themeNameVar = none) →
      dictGet ctx themeNameVar = some (.str unknownThemeName)) ∧
    (dictGet data variantKey = none →
      (∀ fields, dictGet data paletteKey = some (.obj fields) →
        dictGet (fieldsToList fields) themeTypeVar = none) →
      dictGet ctx themeTypeVar = some (.str darkVariant)) ∧
    (∀ fields k v, dictGet data paletteKey = some (.obj fields) →
      dictGet (fieldsToList fields) k = some v → dictGet ctx k = some v) := by
  unfold parse_base16_palette at h
  cases hpal : dictGet data paletteKey with
  | none =>
    rw [hpal] at h
    have hctx : ctx = [(themeNameVar, (dictGet data themeNameKey).getD (.str unknownThemeName)),
      (themeTypeVar, (dictGet data variantKey).getD (.str darkVariant))] :=
      (Option.some_inj.mp h).symm
    subst hctx
    refine ⟨?_, ?_, ?_, ?_, ?_⟩
    · rw [dictGet_pair_fst _ _ _ _ (by decide)]
      rfl
    · rw [dictGet_pair_snd]
      rfl
    · intro h1 _
      rw [dictGet_pair_fst _ _ _ _ (by decide), h1]
      rfl
    · intro h1 _
      rw [dictGet_pair_snd, h1]
      rfl
    · intro fields k v hf _
      exact Option.noConfusion hf
  | some pv =>
    rw [hpal] at h
    cases pv with
    | obj fields =>
      have hctx : ctx = dictUpdate
        [(themeNameVar, (dictGet data themeNameKey).getD (.str unknownThemeName)),
         (themeTypeVar, (dictGet data variantKey).getD (.str darkVariant))]
        (fieldsToList fields) := (Option.some_inj.mp h).symm
      subst hctx
      refine ⟨?_, ?_, ?_, ?_, ?_⟩
      · rw [dictUpdate_get]
        cases hf : dictGet (fieldsToList fields) themeNameVar with
        | some v => rfl
        | none =>
          rw [dictGet_pair_fst _ _ _ _ (by decide)]
          rfl
      · rw [dictUpdate_get]
        cases hf : dictGet (fieldsToList fields) themeTypeVar with
        | some v => rfl
        | none =>
          rw [dictGet_pair_snd]
          rfl
      · intro h1 h2
        rw [dictUpdate_get, h2 fields rfl, dictGet_pair_fst _ _ _ _ (by decide), h1]
        rfl
      · intro h1 h2
        rw [dictUpdate_get, h2 fields rfl, dictGet_pair_snd, h1]
        rfl
      · intro fields2 k v hf2 hv
        have heq : fields2 = fields :=
          (JsonValue.obj.inj (Option.some_inj.mp hf2)).symm
        subst heq
        rw [dictUpdate_get, hv]
    | str s => cases h
    | num q => cases h
    | bool b => cases h
    | null => cases h
    | arr items => cases h

/-- C10 witnessed at the empty source mapping: both metadata keys are
bound, to their defaults. -/
theorem C10_parse_palette_bindings_witness :
    (dictGet [(themeNameVar, JsonValue.str unknownThemeName),
      (themeTypeVar, JsonValue.str darkVariant)] themeNameVar).isSome = true :=
  (C10_parse_palette_bindings [] _ rfl).1

/-! ### Claim C9 -/

theorem find_closest_loop_key (dE : DeltaEKernel) (t : List Char) :
    ∀ (rest : List (List Char × List Char))
      (st out : List Char × Option ℤ × Option ℚ),
      find_closest_loop dE t rest st = some out →
      out = st ∨ ∃ c, (out.1, c) ∈ rest ∧ out.2.2 = delta_e_distance dE t c := by
  intro rest
  induction rest with
  | nil =>
    intro st out h
    exact Or.inl (Option.some_inj.mp h).symm
  | cons p rest2 ih =>
    intro st out h
    obtain ⟨k0, c0⟩ := p
    obtain ⟨ck, mrgb, mde⟩ := st
    unfold find_closest_loop at h
    split at h
    · cases h
    · split at h
      · rcases ih _ _ h with heq | ⟨c, hc, hde⟩
        · refine Or.inr ⟨c0, ?_, ?_⟩
          · rw [heq]
            exact List.mem_cons_self _ _
          · rw [heq]
        · exact Or.inr ⟨c, List.mem_cons_of_mem _ hc, hde⟩
      · rcases ih _ _ h with heq | ⟨c, hc, hde⟩
        · exact Or.inl heq
        · exact Or.inr ⟨c, List.mem_cons_of_mem _ hc, hde⟩

/-- C9: for every Delta E kernel, every color and every non-empty
palette with distinct slot names, the perceptual distance
`find_closest_base16_color` returns corresponds to the returned slot
key: it equals `delta_e_distance` between the alpha-stripped target and
the returned slot's palette color (`none` when that computation fails),
because key and perceptual distance are updated together exactly when a
strictly smaller RGB distance is found. -/
theorem C9_nearest_delta_corresponds (dE : DeltaEKernel) (target : List Char)
    (P : List (List Char × List Char)) (hne : P ≠ [])
    (hnd : (P.map Prod.fst).Nodup)
    (k : List Char) (d : Option ℤ) (de : Option ℚ)
    (h : find_closest_base16_color dE target P = some (k, d, de)) :
    ∃ c, dictGet P k = some c ∧
      de = delta_e_distance dE (strip_alpha target) c := by
  unfold find_closest_base16_color at h
  rw [if_neg hne] at h
  obtain ⟨⟨k0, c0⟩, rest, rfl⟩ :
      ∃ p rest, P = p :: rest := by
    cases P with
    | nil => exact absurd rfl hne
    | cons p rest => exact ⟨p, rest, rfl⟩
  unfold find_closest_loop at h
  split at h
  · cases h
  · split at h
    · rcases find_closest_loop_key dE (strip_alpha target) rest _ _ h with
        heq | ⟨c, hc, hde⟩
      · refine ⟨c0, ?_, ?_⟩
        · have hk : k = k0 := congrArg Prod.fst heq
          subst hk
          exact dictGet_mem_nodup hnd (List.mem_cons_self _ _)
        · exact congrArg (fun st => st.2.2) heq
      · refine ⟨c, ?_, hde⟩
        exact dictGet_mem_nodup hnd (List.mem_cons_of_mem _ hc)
    · rename_i hlt
      exact absurd rfl hlt

/-- C9 witnessed at a concrete palette and kernel. -/
theorem C9_nearest_delta_corresponds_witness :
    ∃ c, dictGet [("base00".toList, "#ffffff".toList)] ("base00".toList) = some c ∧
      (some (0 : ℚ)) = delta_e_distance (fun _ _ => some 0)
        (strip_alpha ("#000000".toList)) c :=
  C9_nearest_delta_corresponds (fun _ _ => some 0) ("#000000".toList)
    [("base00".toList, "#ffffff".toList)] (by decide) (by decide)
    ("base00".toList) (some 195075) (some 0) (by decide)

/-! ### Claim C6 -/

theorem replace_subst_transfer (dE : DeltaEKernel) (s : List Char)
    (cm : List (List Char × (List Char × Bool)))
    (pal : List (List Char × List Char)) (t1 t2 : ℚ)
    (h1 : 0 < t1) (h12 : t1 ≤ t2) (r : List Char)
    (hr : replace_color_with_variable dE s cm pal (some t1) = some r)
    (hne : r ≠ s) :
    replace_color_with_variable dE s cm pal (some t2) = some r := by
  unfold replace_color_with_variable at hr ⊢
  by_cases he : s = []
  · rw [if_pos he] at hr
    exact absurd (Option.some_inj.mp hr).symm hne
  rw [if_neg he] at hr ⊢
  by_cases hsent : pyLower s = sentinelShort ∨ pyLower s = sentinelLong
  · rw [if_pos hsent] at hr
    exact absurd (Option.some_inj.mp hr).symm hne
  rw [if_neg hsent] at hr ⊢
  cases hm : dictGet cm (strip_alpha s) with
  | some pr =>
    obtain ⟨key, flag⟩ := pr
    simp only [hm] at hr ⊢
    exact hr
  | none =>
    simp only [hm] at hr ⊢
    rw [if_pos h1] at hr
    rw [if_pos (lt_of_lt_of_le h1 h12)]
    cases hf : find_closest_base16_color dE s pal with
    | none =>
      rw [hf] at hr
      exact Option.noConfusion hr
    | some triple =>
      obtain ⟨ck, dd, de⟩ := triple
      cases de with
      | none =>
        simp only [hf] at hr
        exact absurd (Option.some_inj.mp hr).symm hne
      | some dv =>
        simp only [hf] at hr ⊢
        by_cases hd : dv ≤ t1
        · rw [if_pos hd] at hr
          rw [if_pos (le_trans hd h12)]
          exact hr
        · rw [if_neg hd] at hr
          exact absurd (Option.some_inj.mp hr).symm hne

mutual
theorem substCount_mono_val (dE : DeltaEKernel)
    (cm : List (List Char × (List Char × Bool)))
    (pal : List (List Char × List Char)) (t1 t2 : ℚ)
    (h1 : 0 < t1) (h12 : t1 ≤ t2) :
    ∀ v, substCount dE cm pal (some t1) v ≤ substCount dE cm pal (some t2) v
  | .str s => by
    by_cases hh : s.head? = some '#'
    · cases hr : replace_color_with_variable dE s cm pal (some t1) with
      | none =>
        have : substCount dE cm pal (some t1) (.str s) = 0 := by
          simp [substCount, hh, hr]
        rw [this]
        exact Nat.zero_le _
      | some r =>
        by_cases hrs : r = s
        · have : substCount dE cm pal (some t1) (.str s) = 0 := by
            simp [substCount, hh, hr, hrs]
          rw [this]
          exact Nat.zero_le _
        · have ht2 := replace_subst_transfer dE s cm pal t1 t2 h1 h12 r hr hrs
          have e1 : substCount dE cm pal (some t1) (.str s) = 1 := by
            simp [substCount, hh, hr, hrs]
          have e2 : substCount dE cm pal (some t2) (.str s) = 1 := by
            simp [substCount, hh, ht2, hrs]
          rw [e1, e2]
    · have e1 : substCount dE cm pal (some t1) (.str s) = 0 := by
        simp [substCount, hh]
      rw [e1]
      exact Nat.zero_le _
  | .num q => le_refl _
  | .bool b => le_refl _
  | .null => le_refl _
  | .obj fields => by
    have := substCount_mono_fields dE cm pal t1 t2 h1 h12 fields
    simpa [substCount] using this
  | .arr items => by
    have := substCount_mono_items dE cm pal t1 t2 h1 h12 items
    simpa [substCount] using this

theorem substCount_mono_fields (dE : DeltaEKernel)
    (cm : List (List Char × (List Char × Bool)))
    (pal : List (List Char × List Char)) (t1 t2 : ℚ)
    (h1 : 0 < t1) (h12 : t1 ≤ t2) :
    ∀ fs, substCountFields dE cm pal (some t1) fs ≤
      substCountFields dE cm pal (some t2) fs
  | .nil => le_refl _
  | .cons k v rest => by
    have hv := substCount_mono_val dE cm pal t1 t2 h1 h12 v
    have hr := substCount_mono_fields dE cm pal t1 t2 h1 h12 rest
    simpa [substCountFields] using Nat.add_le_add hv hr

theorem substCount_mono_items (dE : DeltaEKernel)
    (cm : List (List Char × (List Char × Bool)))
    (pal : List (List Char × List Char)) (t1 t2 : ℚ)
    (h1 : 0 < t1) (h12 : t1 ≤ t2) :
    ∀ xs, substCountItems dE cm pal (some t1) xs ≤
      substCountItems dE cm pal (some t2) xs
  | .nil => le_refl _
  | .cons v rest => by
    have hv := substCount_mono_val dE cm pal t1 t2 h1 h12 v
    have hr := substCount_mono_items dE cm pal t1 t2 h1 h12 rest
    simpa [substCountItems] using Nat.add_le_add hv hr
end

/-- C6: fuzzy threshold monotonicity: for positive thresholds t1 ≤ t2,
every color occurrence substituted at t1 is substituted — to the same
placeholder — at t2, so the number of substituted leaves of any
document never decreases when the threshold is raised; and a
substitution of a color with no exact match can only be a fuzzy one:
the threshold is a positive number and the nearest slot's perceptual
distance is non-null and at most the threshold. -/
theorem C6_fuzzy_threshold_monotonic (dE : DeltaEKernel)
    (cm : List (List Char × (List Char × Bool)))
    (pal : List (List Char × List Char)) (t1 t2 : ℚ)
    (h1 : 0 < t1) (h12 : t1 ≤ t2) :
    (∀ s r, replace_color_with_variable dE s cm pal (some t1) = some r →
      r ≠ s → replace_color_with_variable dE s cm pal (some t2) = some r) ∧
    (∀ v, substCount dE cm pal (some t1) v ≤ substCount dE cm pal (some t2) v) ∧
    (∀ s r t, replace_color_with_variable dE s cm pal t = some r → r ≠ s →
      dictGet cm (strip_alpha s) = none →
      ∃ τ, t = some τ ∧ 0 < τ ∧
        ∃ key dd de, find_closest_base16_color dE s pal = some (key, dd, some de) ∧
          de ≤ τ) := by
  refine ⟨fun s r hr hne => replace_subst_transfer dE s cm pal t1 t2 h1 h12 r hr hne,
    substCount_mono_val dE cm pal t1 t2 h1 h12, ?_⟩
  intro s r t hr hne hmiss
  unfold replace_color_with_variable at hr
  by_cases he : s = []
  · rw [if_pos he] at hr
    exact absurd (Option.some_inj.mp hr).symm hne
  rw [if_neg he] at hr
  by_cases hsent : pyLower s = sentinelShort ∨ pyLower s = sentinelLong
  · rw [if_pos hsent] at hr
    exact absurd (Option.some_inj.mp hr).symm hne
  rw [if_neg hsent] at hr
  cases t with
  | none =>
    simp only [hmiss] at hr
    exact absurd (Option.some_inj.mp hr).symm hne
  | some τ =>
    simp only [hmiss] at hr
    by_cases hτ : 0 < τ
    · rw [if_pos hτ] at hr
      cases hf : find_closest_base16_color dE s pal with
      | none =>
        rw [hf] at hr
        exact Option.noConfusion hr
      | some triple =>
        obtain ⟨ck, dd, de⟩ := triple
        cases de with
        | none =>
          simp only [hf] at hr
          exact absurd (Option.some_inj.mp hr).symm hne
        | some dv =>
          simp only [hf] at hr
          by_cases hd : dv ≤ τ
          · exact ⟨τ, rfl, hτ, ck, dd, dv, rfl, hd⟩
          · rw [if_neg hd] at hr
            exact absurd (Option.some_inj.mp hr).symm hne
    · rw [if_neg hτ] at hr
      exact absurd (Option.some_inj.mp hr).symm hne

/-- C6 witnessed at thresholds 1 ≤ 2 over a small document. -/
theorem C6_fuzzy_threshold_monotonic_witness :
    (0 : ℚ) < 1 ∧ (1 : ℚ) ≤ 2 ∧
    substCount (fun _ _ => some 0) [] [("base00".toList, "#000000".toList)]
      (some 1) (.str ("#111111".toList)) ≤
    substCount (fun _ _ => some 0) [] [("base00".toList, "#000000".toList)]
      (some 2) (.str ("#111111".toList)) :=
  ⟨by norm_num, by norm_num,
   (C6_fuzzy_threshold_monotonic (fun _ _ => some 0) []
     [("base00".toList, "#000000".toList)] 1 2 (by norm_num) (by norm_num)).2.1
     (.str ("#111111".toList))⟩

/-! ### Claim C7 -/

mutual
theorem process_sameShape_val (dE : DeltaEKernel)
    (cm : List (List Char × (List Char × Bool)))
    (pal : List (List Char × List Char)) (t : Option ℚ) :
    ∀ v w, process_theme_value dE cm pal t v = some w → sameShape v w = true
  | .str s, w, h => by
    by_cases hh : s.head? = some '#'
    · rw [show process_theme_value dE cm pal t (.str s) =
        (if s.head? = some '#' then
          (replace_color_with_variable dE s cm pal t).map .str
         else some (.str s)) from rfl, if_pos hh] at h
      cases hr : replace_color_with_variable dE s cm pal t with
      | none => rw [hr] at h; cases h
      | some r =>
        rw [hr] at h
        simp only [Option.map_some'] at h
        have hw : w = .str r := (Option.some_inj.mp h).symm
        subst hw
        show (s.head? == some '#' || s == r) = true
        rw [beq_iff_eq.mpr hh]
        rfl
    · rw [show process_theme_value dE cm pal t (.str s) =
        (if s.head? = some '#' then
          (replace_color_with_variable dE s cm pal t).map .str
         else some (.str s)) from rfl, if_neg hh] at h
      have hw : w = .str s := (Option.some_inj.mp h).symm
      subst hw
      show (s.head? == some '#' || s == s) = true
      simp
  | .num q, w, h => by
    have hw : w = .num q := (Option.some_inj.mp h).symm
    subst hw
    show (q == q) = true
    simp
  | .bool b, w, h => by
    have hw : w = .bool b := (Option.some_inj.mp h).symm
    subst hw
    show (b == b) = true
    simp
  | .null, w, h => by
    have hw : w = .null := (Option.some_inj.mp h).symm
    subst hw
    rfl
  | .obj fields, w, h => by
    rw [show process_theme_value dE cm pal t (.obj fields) =
      (process_theme_fields dE cm pal t fields).map .obj from rfl] at h
    cases hfs : process_theme_fields dE cm pal t fields with
    | none => rw [hfs] at h; cases h
    | some ws =>
      rw [hfs] at h
      simp only [Option.map_some'] at h
      have hw : w = .obj ws := (Option.some_inj.mp h).symm
      subst hw
      show sameShapeFields fields ws = true
      exact process_sameShape_fields dE cm pal t fields ws hfs
  | .arr items, w, h => by
    rw [show process_theme_value dE cm pal t (.arr items) =
      (process_theme_items dE cm pal t items).map .arr from rfl] at h
    cases hxs : process_theme_items dE cm pal t items with
    | none => rw [hxs] at h; cases h
    | some ws =>
      rw [hxs] at h
      simp only [Option.map_some'] at h
      have hw : w = .arr ws := (Option.some_inj.mp h).symm
      subst hw
      show sameShapeItems items ws = true
      exact process_sameShape_items dE cm pal t items ws hxs

theorem process_sameShape_fields (dE : DeltaEKernel)
    (cm : List (List Char × (List Char × Bool)))
    (pal : List (List Char × List Char)) (t : Option ℚ) :
    ∀ fs ws, process_theme_fields dE cm pal t fs = some ws →
      sameShapeFields fs ws = true
  | .nil, ws, h => by
    have hw : ws = .nil := (Option.some_inj.mp h).symm
    subst hw
    rfl
  | .cons k v rest, ws, h => by
    unfold process_theme_fields at h
    cases hv : process_theme_value dE cm pal t v with
    | none => rw [hv] at h; exact Option.noConfusion h
    | some w1 =>
      rw [hv] at h
      cases hrest : process_theme_fields dE cm pal t rest with
      | none =>
        rw [hrest] at h
        exact Option.noConfusion h
      | some ws1 =>
        rw [hrest] at h
        have hw : ws = .cons k w1 ws1 := (Option.some_inj.mp h).symm
        subst hw
        show (k == k && sameShape v w1 && sameShapeFields rest ws1) = true
        rw [process_sameShape_val dE cm pal t v w1 hv,
          process_sameShape_fields dE cm pal t rest ws1 hrest]
        simp

theorem process_sameShape_items (dE : DeltaEKernel)
    (cm : List (List Char × (List Char × Bool)))
    (pal : List (List Char × List Char)) (t : Option ℚ) :
    ∀ xs ws, process_theme_items dE cm pal t xs = some ws →
      sameShapeItems xs ws = true
  | .nil, ws, h => by
    have hw : ws = .nil := (Option.some_inj.mp h).symm
    subst hw
    rfl
  | .cons v rest, ws, h => by
    unfold process_theme_items at h
    cases hv : process_theme_value dE cm pal t v with
    | none => rw [hv] at h; exact Option.noConfusion h
    | some w1 =>
      rw [hv] at h
      cases hrest : process_theme_items dE cm pal t rest with
      | none =>
        rw [hrest] at h
        exact Option.noConfusion h
      | some ws1 =>
        rw [hrest] at h
        have hw : ws = .cons w1 ws1 := (Option.some_inj.mp h).symm
        subst hw
        show (sameShape v w1 && sameShapeItems rest ws1) = true
        rw [process_sameShape_val dE cm pal t v w1 hv,
          process_sameShape_items dE cm pal t rest ws1 hrest]
        rfl
end

mutual
theorem rewriteTree_id : ∀ v, rewriteTree (fun s => s) v = v
  | .str s => by
    unfold rewriteTree
    split <;> rfl
  | .num q => rfl
  | .bool b => rfl
  | .null => rfl
  | .obj fields => by
    unfold rewriteTree
    rw [rewriteFields_id fields]
  | .arr items => by
    unfold rewriteTree
    rw [rewriteItems_id items]

theorem rewriteFields_id : ∀ fs, rewriteFields (fun s => s) fs = fs
  | .nil => rfl
  | .cons k v rest => by
    unfold rewriteFields
    rw [rewriteTree_id v, rewriteFields_id rest]

theorem rewriteItems_id : ∀ xs, rewriteItems (fun s => s) xs = xs
  | .nil => rfl
  | .cons v rest => by
    unfold rewriteItems
    rw [rewriteTree_id v, rewriteItems_id rest]
end

/-- C7: the tree walk preserves structure: whenever
`process_theme_value` returns a tree, that tree agrees with the input
constructor-for-constructor — same object keys in the same order, same
array lengths and element order, every non-string scalar unchanged, and
every string not beginning with `#` unchanged — and the walk with an
identity color callback returns a tree deep-equal to the input. -/
theorem C7_structural_preservation :
    (∀ (dE : DeltaEKernel) (cm : List (List Char × (List Char × Bool)))
      (pal : List (List Char × List Char)) (t : Option ℚ) (v w : JsonValue),
      process_theme_value dE cm pal t v = some w → sameShape v w = true) ∧
    (∀ v, rewriteTree (fun s => s) v = v) :=
  ⟨fun dE cm pal t v w h => process_sameShape_val dE cm pal t v w h,
   rewriteTree_id⟩

/-- C7 witnessed on a concrete color leaf and a concrete array. -/
theorem C7_structural_preservation_witness :
    sameShape (.str ("#ea9a97".toList))
      (.str (placeholder ("base0A".toList))) = true ∧
    rewriteTree (fun s => s) (.arr (.cons (.str ("plain".toList)) .nil)) =
      .arr (.cons (.str ("plain".toList)) .nil) :=
  ⟨C7_structural_preservation.1 (fun _ _ => none)
      (build_color_to_base16_map [("base0A".toList, "#ea9a97".toList)] none)
      [("base0A".toList, "#ea9a97".toList)] none
      (.str ("#ea9a97".toList)) (.str (placeholder ("base0A".toList))) rfl,
   C7_structural_preservation.2 _⟩

/-! ### Claim C3: character and normalization lemmas -/

theorem isHexChar_mem (c : Char) (h : isHexChar c = true) : c ∈ hexAllChars := by
  unfold isHexChar at h
  simp only [Bool.or_eq_true, Bool.and_eq_true, decide_eq_true_eq] at h
  have hval : (48 ≤ c.toNat ∧ c.toNat ≤ 57) ∨ (97 ≤ c.toNat ∧ c.toNat ≤ 102) ∨
      (65 ≤ c.toNat ∧ c.toNat ≤ 70) := by
    rcases h with (h | h) | h
    · left
      unfold Char.isDigit at h
      simp only [Bool.and_eq_true, decide_eq_true_eq, Char.le_def] at h
      exact ⟨h.1, h.2⟩
    · right; left
      simp only [Char.le_def] at h
      exact ⟨h.1, h.2⟩
    · right; right
      simp only [Char.le_def] at h
      exact ⟨h.1, h.2⟩
  have hofn := Char.ofNat_toNat c
  have hlo : 48 ≤ c.toNat := by omega
  have hhi : c.toNat ≤ 102 := by omega
  set n := c.toNat with hn
  interval_cases n <;> first
    | (rw [← hofn]; decide)
    | omega

theorem toLower_hex_facts (c : Char) (h : isHexChar c = true) :
    (Char.toLower c).isWhitespace = false ∧ Char.toLower c ≠ '#' := by
  have hmem := isHexChar_mem c h
  have hall : ∀ d ∈ hexAllChars,
      (Char.toLower d).isWhitespace = false ∧ Char.toLower d ≠ '#' := by decide
  exact hall c hmem

theorem pyStrip_id (l : List Char) (h : ∀ c ∈ l, c.isWhitespace = false) :
    pyStrip l = l := by
  unfold pyStrip
  rw [dropWhile_all_false _ l h,
    dropWhile_all_false _ l.reverse (fun c hc => h c (List.mem_reverse.mp hc)),
    List.reverse_reverse]

theorem normalize_hash_hex (w : List Char) (hw : ∀ c ∈ w, isHexChar c = true)
    (hne : w ≠ []) : normalize_color ('#' :: w) = pyLower w := by
  unfold normalize_color
  rw [if_neg (by simp)]
  have hlower : pyLower ('#' :: w) = '#' :: pyLower w := by
    unfold pyLower
    rw [List.map_cons]
    rfl
  rw [hlower]
  have hstrip : pyStrip ('#' :: pyLower w) = '#' :: pyLower w := by
    apply pyStrip_id
    intro c hc
    rcases List.mem_cons.mp hc with rfl | hc2
    · decide
    · obtain ⟨c0, hc0, rfl⟩ := List.mem_map.mp hc2
      exact (toLower_hex_facts c0 (hw c0 hc0)).1
  rw [hstrip]
  rw [List.dropWhile_cons, if_pos (by decide)]
  obtain ⟨h0, t0, rfl⟩ : ∃ h0 t0, w = h0 :: t0 := by
    cases w with
    | nil => exact absurd rfl hne
    | cons h0 t0 => exact ⟨h0, t0, rfl⟩
  show (pyLower (h0 :: t0)).dropWhile (· == '#') = pyLower (h0 :: t0)
  rw [show pyLower (h0 :: t0) = Char.toLower h0 :: pyLower t0 from rfl,
    List.dropWhile_cons]
  have hne0 : (Char.toLower h0 == '#') = false := by
    rw [beq_eq_false_iff_ne]
    exact (toLower_hex_facts h0 (hw h0 (List.mem_cons_self h0 t0))).2
  rw [hne0]
  simp

theorem goodSlotValue_spec (v : List Char) (h : goodSlotValue v = true) :
    ∃ w, v = '#' :: w ∧ w.length = 6 ∧ ∀ c ∈ w, isHexChar c = true := by
  cases v with
  | nil => cases h
  | cons c w =>
    unfold goodSlotValue at h
    simp only [Bool.and_eq_true, beq_iff_eq, List.all_eq_true] at h
    exact ⟨w, by rw [h.1.1], h.1.2, h.2⟩

theorem slot_normalize_strip (v : List Char) (h : goodSlotValue v = true) :
    strip_alpha v = normalize_color v ∧ (normalize_color v).length = 6 := by
  obtain ⟨w, rfl, hlen, hhex⟩ := goodSlotValue_spec v h
  have hnorm := normalize_hash_hex w hhex (by
    intro hcon
    rw [hcon] at hlen
    cases hlen)
  have hlen6 : (normalize_color ('#' :: w)).length = 6 := by
    rw [hnorm]
    unfold pyLower
    rw [List.length_map, hlen]
  refine ⟨?_, hlen6⟩
  unfold strip_alpha
  rw [if_neg (by rw [hlen6]; omega)]

/-! ### Claim C3: lookup lemmas -/

theorem dictGet_cons {α : Type} (p : List Char × α) (rest : List (List Char × α))
    (k : List Char) :
    dictGet (p :: rest) k =
      match dictGet rest k with
      | some v => some v
      | none => if p.1 = k then some p.2 else none := rfl

theorem colorMap_lookup (P : List (List Char × List Char))
    (hnd : (P.map (fun p => normalize_color p.2)).Nodup)
    (k s : List Char) (hmem : (k, s) ∈ P) :
    dictGet (build_color_to_base16_map P none) (normalize_color s) =
      some (k, true) := by
  induction P with
  | nil => cases hmem
  | cons p rest ih =>
    rw [List.map_cons, List.nodup_cons] at hnd
    rw [show build_color_to_base16_map (p :: rest) none =
      (normalize_color p.2, (p.1, true)) :: build_color_to_base16_map rest none
      from rfl]
    rw [dictGet_cons]
    rcases List.mem_cons.mp hmem with heq | hmem2
    · have hps : p = (k, s) := heq.symm
      subst hps
      have hnone : dictGet (build_color_to_base16_map rest none)
          (normalize_color s) = none := by
        refine dictGet_eq_none ?_
        intro q hq
        obtain ⟨q0, hq0, rfl⟩ := List.mem_map.mp hq
        intro hcon
        exact hnd.1 (hcon ▸ List.mem_map.mpr ⟨q0, hq0, rfl⟩)
      rw [hnone]
      simp
    · rw [ih hnd.2 hmem2]

theorem slot_key_ne_meta (P : List (List Char × List Char))
    (hP : goodPalette P) :
    (∀ p ∈ P, p.1 ≠ themeNameVar) ∧ (∀ p ∈ P, p.1 ≠ themeTypeVar) := by
  constructor <;>
  · intro p hp heq
    have hal := (hP.1 p hp).2.1
    have hu : ('_' : Char) ∈ p.1 := by
      rw [heq]
      decide
    have := hal '_' hu
    exact absurd this (by decide)

theorem ctx_meta_lookup (nm vt : List Char) (P : List (List Char × List Char))
    (hP : goodPalette P) :
    dictGet (bindingContext nm vt P) themeNameVar = some nm ∧
    dictGet (bindingContext nm vt P) themeTypeVar = some vt := by
  obtain ⟨hn, ht⟩ := slot_key_ne_meta P hP
  unfold bindingContext
  constructor
  · rw [dictUpdate_get, dictGet_eq_none hn, dictGet_pair_fst _ _ _ _ (by decide)]
  · rw [dictUpdate_get, dictGet_eq_none ht, dictGet_pair_snd]

theorem ctx_slot_lookup (nm vt : List Char) (P : List (List Char × List Char))
    (hP : goodPalette P) (k s : List Char) (hmem : (k, s) ∈ P) :
    dictGet (bindingContext nm vt P) k = some s := by
  unfold bindingContext
  rw [dictUpdate_get, dictGet_mem_nodup hP.2.1 hmem]

/-! ### Claim C3: the leaf round trip -/

theorem process_str (dE : DeltaEKernel)
    (cm : List (List Char × (List Char × Bool)))
    (pal : List (List Char × List Char)) (t : Option ℚ) (s : List Char) :
    process_theme_value dE cm pal t (.str s) =
      if s.head? = some '#' then
        (replace_color_with_variable dE s cm pal t).map .str
      else some (.str s) := rfl

theorem process_obj (dE : DeltaEKernel)
    (cm : List (List Char × (List Char × Bool)))
    (pal : List (List Char × List Char)) (t : Option ℚ) (fields : JsonFields) :
    process_theme_value dE cm pal t (.obj fields) =
      (process_theme_fields dE cm pal t fields).map .obj := rfl

theorem process_arr (dE : DeltaEKernel)
    (cm : List (List Char × (List Char × Bool)))
    (pal : List (List Char × List Char)) (t : Option ℚ) (items : JsonItems) :
    process_theme_value dE cm pal t (.arr items) =
      (process_theme_items dE cm pal t items).map .arr := rfl

theorem pureTree_str (P : List (List Char × List Char)) (s : List Char) :
    pureTree P (.str s) =
      if s.head? = some '#' then P.any (fun p => p.2 == s) else !hasOpen s := rfl

theorem pureFields_cons (P : List (List Char × List Char)) (k : List Char)
    (v : JsonValue) (rest : JsonFields) :
    pureFields P (.cons k v rest) =
      (!hasOpen k && pureTree P v && pureFields P rest) := rfl

theorem pureItems_cons (P : List (List Char × List Char)) (v : JsonValue)
    (rest : JsonItems) :
    pureItems P (.cons v rest) = (pureTree P v && pureItems P rest) := rfl

theorem bindTree_str (ctx : List (List Char × List Char)) (s : List Char) :
    bindTree ctx (.str s) = .str (jinja_render ctx s) := rfl

theorem bindFields_cons (ctx : List (List Char × List Char)) (k : List Char)
    (v : JsonValue) (rest : JsonFields) :
    bindFields ctx (.cons k v rest) =
      .cons (jinja_render ctx k) (bindTree ctx v) (bindFields ctx rest) := rfl

theorem bindItems_cons (ctx : List (List Char × List Char)) (v : JsonValue)
    (rest : JsonItems) :
    bindItems ctx (.cons v rest) = .cons (bindTree ctx v) (bindItems ctx rest) := rfl

theorem jinja_render_nil (ctx : List (List Char × List Char)) :
    jinja_render ctx [] = [] := rfl

theorem leaf_roundtrip (dE : DeltaEKernel) (nm vt : List Char)
    (P : List (List Char × List Char)) (hP : goodPalette P) (s : List Char)
    (hany : P.any (fun p => p.2 == s) = true) :
    ∃ key, replace_color_with_variable dE s (build_color_to_base16_map P none) P none
        = some (placeholder key) ∧
      jinja_render (bindingContext nm vt P) (placeholder key) = s := by
  obtain ⟨⟨k, v⟩, hp, hps⟩ := List.any_eq_true.mp hany
  have hvs : v = s := beq_iff_eq.mp hps
  rw [hvs] at hp
  have hgood := hP.1 (k, s) hp
  have hslot := hgood.2.2
  obtain ⟨w, hsw, hw6, hwhex⟩ := goodSlotValue_spec s hslot
  have hstrip := slot_normalize_strip s hslot
  have hne : ¬ s = [] := by
    rw [hsw]
    simp
  have hslen : s.length = 7 := by
    rw [hsw, List.length_cons, hw6]
  have hsent : ¬ (pyLower s = sentinelShort ∨ pyLower s = sentinelLong) := by
    rintro (hcon | hcon) <;>
    · have hlen := congrArg List.length hcon
      rw [show (pyLower s).length = s.length from List.length_map s Char.toLower,
        hslen] at hlen
      exact absurd hlen (by decide)
  have hlookup : dictGet (build_color_to_base16_map P none) (strip_alpha s) =
      some (k, true) := by
    rw [hstrip.1]
    exact colorMap_lookup P hP.2.2 k s hp
  have hlen8 : ¬ (normalize_color s).length = 8 := by
    rw [hstrip.2]
    omega
  refine ⟨k, ?_, ?_⟩
  · unfold replace_color_with_variable
    rw [if_neg hne, if_neg hsent]
    simp only [hlookup]
    rw [if_neg hlen8]
  · have hg : goodName k = true := hgood.1
    have hctx : dictGet (bindingContext nm vt P) k = some s :=
      ctx_slot_lookup nm vt P hP k s hp
    have hpl := jinja_render_placeholder (bindingContext nm vt P) k [] hg
    rw [List.append_nil] at hpl
    rw [hpl, hctx]
    show s ++ jinja_render (bindingContext nm vt P) [] = s
    rw [jinja_render_nil, List.append_nil]

/-! ### Claim C3: the tree round trip -/

mutual
theorem roundtrip_val (dE : DeltaEKernel) (nm vt : List Char)
    (P : List (List Char × List Char)) (hP : goodPalette P) :
    ∀ v, pureTree P v = true →
      ∃ w, process_theme_value dE (build_color_to_base16_map P none) P none v
          = some w ∧
        bindTree (bindingContext nm vt P) w = v
  | .str s, hpure => by
    by_cases hh : s.head? = some '#'
    · have hany : P.any (fun p => p.2 == s) = true := by
        rw [pureTree_str, if_pos hh] at hpure
        exact hpure
      obtain ⟨key, hrep, hren⟩ := leaf_roundtrip dE nm vt P hP s hany
      refine ⟨.str (placeholder key), ?_, ?_⟩
      · rw [process_str, if_pos hh, hrep]
        rfl
      · rw [bindTree_str, hren]
    · have hopen : hasOpen s = false := by
        rw [pureTree_str, if_neg hh] at hpure
        simpa using hpure
      refine ⟨.str s, ?_, ?_⟩
      · rw [process_str, if_neg hh]
      · rw [bindTree_str, jinja_render_inert _ _ hopen]
  | .num q, _ => ⟨.num q, rfl, rfl⟩
  | .bool b, _ => ⟨.bool b, rfl, rfl⟩
  | .null, _ => ⟨.null, rfl, rfl⟩
  | .obj fields, hpure => by
    obtain ⟨ws, h1, h2⟩ := roundtrip_fields dE nm vt P hP fields hpure
    refine ⟨.obj ws, ?_, ?_⟩
    · rw [process_obj, h1]
      rfl
    · show JsonValue.obj (bindFields (bindingContext nm vt P) ws) = .obj fields
      rw [h2]
  | .arr items, hpure => by
    obtain ⟨ws, h1, h2⟩ := roundtrip_items dE nm vt P hP items hpure
    refine ⟨.arr ws, ?_, ?_⟩
    · rw [process_arr, h1]
      rfl
    · show JsonValue.arr (bindItems (bindingContext nm vt P) ws) = .arr items
      rw [h2]

theorem roundtrip_fields (dE : DeltaEKernel) (nm vt : List Char)
    (P : List (List Char × List Char)) (hP : goodPalette P) :
    ∀ fs, pureFields P fs = true →
      ∃ ws, process_theme_fields dE (build_color_to_base16_map P none) P none fs
          = some ws ∧
        bindFields (bindingContext nm vt P) ws = fs
  | .nil, _ => ⟨.nil, rfl, rfl⟩
  | .cons key v rest, hpure => by
    rw [pureFields_cons, Bool.and_eq_true, Bool.and_eq_true] at hpure
    have hkopen : hasOpen key = false := by simpa using hpure.1.1
    obtain ⟨w, hv1, hv2⟩ := roundtrip_val dE nm vt P hP v hpure.1.2
    obtain ⟨ws, hr1, hr2⟩ := roundtrip_fields dE nm vt P hP rest hpure.2
    refine ⟨.cons key w ws, ?_, ?_⟩
    · unfold process_theme_fields
      simp only [hv1, hr1]
    · rw [bindFields_cons, jinja_render_inert _ _ hkopen, hv2, hr2]

theorem roundtrip_items (dE : DeltaEKernel) (nm vt : List Char)
    (P : List (List Char × List Char)) (hP : goodPalette P) :
    ∀ xs, pureItems P xs = true →
      ∃ ws, process_theme_items dE (build_color_to_base16_map P none) P none xs
          = some ws ∧
        bindItems (bindingContext nm vt P) ws = xs
  | .nil, _ => ⟨.nil, rfl, rfl⟩
  | .cons v rest, hpure => by
    rw [pureItems_cons, Bool.and_eq_true] at hpure
    obtain ⟨w, hv1, hv2⟩ := roundtrip_val dE nm vt P hP v hpure.1
    obtain ⟨ws, hr1, hr2⟩ := roundtrip_items dE nm vt P hP rest hpure.2
    refine ⟨.cons w ws, ?_, ?_⟩
    · unfold process_theme_items
      simp only [hv1, hr1]
    · rw [bindItems_cons, hv2, hr2]
end

theorem generate_template_themeDoc (dE : DeltaEKernel)
    (P : List (List Char × List Char)) (t : Option ℚ) (nm vt : List Char)
    (colorsDoc tokensDoc : JsonValue) (cw tw : JsonValue)
    (hc : process_theme_value dE (build_color_to_base16_map P t) P t colorsDoc
      = some cw)
    (ht : process_theme_value dE (build_color_to_base16_map P t) P t tokensDoc
      = some tw) :
    generate_template dE (themeDoc nm vt colorsDoc tokensDoc) P t =
      some (.cons themeNameKey (.str themeNamePlaceholder)
        (.cons themeTypeKey (.str themeTypePlaceholder)
          (.cons colorsKey cw (.cons tokenColorsKey tw .nil)))) := by
  unfold generate_template
  rw [show fieldsGet (themeDoc nm vt colorsDoc tokensDoc) themeNameKey
      = some (.str nm) from rfl,
    show fieldsGet (themeDoc nm vt colorsDoc tokensDoc) themeTypeKey
      = some (.str vt) from rfl,
    show fieldsGet (themeDoc nm vt colorsDoc tokensDoc) colorsKey
      = some colorsDoc from rfl,
    show fieldsGet (themeDoc nm vt colorsDoc tokensDoc) tokenColorsKey
      = some tokensDoc from rfl]
  simp only [hc, ht]
  rfl

/-- C3: exact-match inverse: for a theme document over the closed
schema `name`/`type`/`colors`/`tokenColors` whose `name` and `type`
equal the palette metadata, generated purely from the palette's own
values (every `#`-string equals some slot's value verbatim, all other
strings and keys are ordinary placeholder-free text), `generate_template`
with no threshold followed by binding the same palette's values into the
template reproduces the original document exactly — in particular the
placeholders, which carry no alpha, resolve back to the identical
6-digit value. -/
theorem C3_exact_match_roundtrip (dE : DeltaEKernel)
    (P : List (List Char × List Char)) (nm vt : List Char)
    (colorsDoc tokensDoc : JsonValue) (hP : goodPalette P)
    (hc : pureTree P colorsDoc = true) (ht : pureTree P tokensDoc = true) :
    ∃ tmpl,
      generate_template dE (themeDoc nm vt colorsDoc tokensDoc) P none
        = some tmpl ∧
      bindDoc (bindingContext nm vt P) tmpl =
        themeDoc nm vt colorsDoc tokensDoc := by
  obtain ⟨cw, hc1, hc2⟩ := roundtrip_val dE nm vt P hP colorsDoc hc
  obtain ⟨tw, ht1, ht2⟩ := roundtrip_val dE nm vt P hP tokensDoc ht
  refine ⟨.cons themeNameKey (.str themeNamePlaceholder)
    (.cons themeTypeKey (.str themeTypePlaceholder)
      (.cons colorsKey cw (.cons tokenColorsKey tw .nil))),
    generate_template_themeDoc dE P none nm vt colorsDoc tokensDoc cw tw hc1 ht1,
    ?_⟩
  have hmeta := ctx_meta_lookup nm vt P hP
  have hnm : jinja_render (bindingContext nm vt P) themeNamePlaceholder = nm := by
    have hpl := jinja_render_placeholder (bindingContext nm vt P)
      ("theme_name".toList) [] (by decide)
    rw [List.append_nil] at hpl
    rw [show themeNamePlaceholder = placeholder ("theme_name".toList) from rfl,
      hpl, show ("theme_name".toList : List Char) = themeNameVar from rfl,
      hmeta.1]
    show nm ++ jinja_render (bindingContext nm vt P) [] = nm
    rw [jinja_render_nil, List.append_nil]
  have hvt : jinja_render (bindingContext nm vt P) themeTypePlaceholder = vt := by
    have hpl := jinja_render_placeholder (bindingContext nm vt P)
      ("theme_type".toList) [] (by decide)
    rw [List.append_nil] at hpl
    rw [show themeTypePlaceholder = placeholder ("theme_type".toList) from rfl,
      hpl, show ("theme_type".toList : List Char) = themeTypeVar from rfl,
      hmeta.2]
    show vt ++ jinja_render (bindingContext nm vt P) [] = vt
    rw [jinja_render_nil, List.append_nil]
  unfold bindDoc
  rw [bindFields_cons, bindFields_cons, bindFields_cons, bindFields_cons]
  rw [bindTree_str, bindTree_str, hnm, hvt, hc2, ht2]
  rw [jinja_render_inert _ themeNameKey (by decide),
    jinja_render_inert _ themeTypeKey (by decide),
    jinja_render_inert _ colorsKey (by decide),
    jinja_render_inert _ tokenColorsKey (by decide)]
  rfl

/-- C3 witnessed at a one-slot palette and a small concrete theme. -/
theorem C3_exact_match_roundtrip_witness :
    goodPalette [("base0A".toList, "#ea9a97".toList)] ∧
    pureTree [("base0A".toList, "#ea9a97".toList)]
      (.obj (.cons ("editorbackground".toList) (.str ("#ea9a97".toList)) .nil))
      = true ∧
    pureTree [("base0A".toList, "#ea9a97".toList)] (.arr .nil) = true ∧
    ∃ tmpl,
      generate_template (fun _ _ => none)
        (themeDoc ("Rose".toList) darkVariant
          (.obj (.cons ("editorbackground".toList) (.str ("#ea9a97".toList)) .nil))
          (.arr .nil))
        [("base0A".toList, "#ea9a97".toList)] none = some tmpl ∧
      bindDoc (bindingContext ("Rose".toList) darkVariant
          [("base0A".toList, "#ea9a97".toList)]) tmpl =
        themeDoc ("Rose".toList) darkVariant
          (.obj (.cons ("editorbackground".toList) (.str ("#ea9a97".toList)) .nil))
          (.arr .nil) :=
  ⟨by decide, by decide, by decide,
   C3_exact_match_roundtrip (fun _ _ => none)
     [("base0A".toList, "#ea9a97".toList)] ("Rose".toList) darkVariant
     (.obj (.cons ("editorbackground".toList) (.str ("#ea9a97".toList)) .nil))
     (.arr .nil) (by decide) (by decide) (by decide)⟩

end ThemeCore
